import Mathlib

/-!
# vk-json-topics-to-postgresql: the per-document ingestion step

A shallow embedding of `main.go`: the staleness decision of `processFile`, the
lookup `findTopic`, and the transaction body of `saveOrUpdateTopic`, over an
explicit model of the six tables declared by `schema`.

Modelling conventions.
* Go `int`/`int64` values are only compared and stored, never added, so they
  are unbounded integers here.
* `float64` (the vote rate) is only carried around, never computed with; it is
  represented by a rational number.
* A table is the list of its rows. `INSERT ... ON CONFLICT (key) DO UPDATE SET
  cols` overwrites `cols` in the rows carrying the key, or appends the row.
* Whatever the storage engine may refuse (constraint violations, connection
  loss) is a parameter, `Storage`; the statements hold for every `Storage`.
* Go picks the order of every `range` over a map afresh. `saveOrUpdateTopic`
  ranges over the participant map once, so every call of `processFile` takes
  its own `RangeOrder` (and its own `Storage`).
* The document types live in the imported package `vk`; they are modelled with
  the fields `main.go` reads. The participant map may be nil, which is what
  `json.Unmarshal` leaves in `var topic vk.Topic` when the file carries no
  `profiles` object; assigning to it panics.
-/

namespace VkJson

/-! ## Document model (package `vk`, as used by `main.go`) -/

/-- Modelled from the spec: the declaration of `vk.Profile` (imported package
`vk`) is not part of `main.go`. Participant record with the five fields that
`saveOrUpdateTopic` reads: identity, first name, last name, screen name, photo. -/
structure Profile where
  ID : Int
  FirstName : String
  LastName : String
  ScreenName : String
  Photo : String
deriving DecidableEq, Repr

/-- Modelled from the spec: the declaration of `vk.Comment` is not part of
`main.go`. Comment record with the fields that `saveOrUpdateTopic` reads; the
attachments are an ordered sequence of content tokens. -/
structure Comment where
  ID : Int
  FromID : Int
  Date : Int
  Text : String
  Likes : Int
  ReplyToUID : Int
  ReplyToCID : Int
  Attachments : List String
deriving DecidableEq, Repr

/-- Modelled from the spec: the declaration of `vk.PollAnswer` is not part of
`main.go`. Poll answer with identity, text, vote count and vote rate; `main.go`
reads `ID`, `Text` and `Votes` only. -/
structure PollAnswer where
  ID : Int
  Text : String
  Votes : Int
  Rate : Rat
deriving DecidableEq, Repr

/-- Modelled from the spec: the declaration of `vk.Poll` is not part of
`main.go`. Poll with the fields that `saveOrUpdateTopic` reads through
`topic.Poll`; it is a value, so a document without a poll decodes to the zero
value. -/
structure Poll where
  ID : Int
  Question : String
  Votes : Int
  Answers : List PollAnswer
  Multiple : Bool
  EndDate : Int
  Closed : Bool
deriving DecidableEq, Repr

/-- Modelled from the spec: an allocated participant mapping of a topic, from
profile identity to profile. As in a Go map the keys are unique and a key is
stored next to its value, so it need not equal the `ID` field of the value. -/
abbrev ProfileMap := AList (fun _ : Int => Profile)

/-- Modelled from the spec: the declaration of `vk.Topic` is not part of
`main.go`. Topic document with the fields that `processFile`, `findTopic` and
`saveOrUpdateTopic` read. `Profiles` is a Go map: `none` is the nil map (the
zero value, left by decoding a file without a `profiles` object), `some m` an
allocated one. -/
structure Topic where
  ID : Int
  Title : String
  IsClosed : Bool
  IsFixed : Bool
  CreatedAt : Int
  UpdatedAt : Int
  CreatedBy : Profile
  UpdatedBy : Profile
  Profiles : Option ProfileMap
  Comments : List Comment
  Poll : Poll

/-- Zero value of `vk.Profile`. -/
def Profile.zero : Profile := ⟨0, "", "", "", ""⟩

/-- Zero value of `vk.Poll`: what decoding leaves when the document has no poll. -/
def Poll.zero : Poll := ⟨0, "", 0, [], false, 0, false⟩

/-- Zero value of `vk.Topic` (`var topic vk.Topic`). -/
def Topic.zero : Topic :=
  ⟨0, "", false, false, 0, 0, Profile.zero, Profile.zero, none, [], Poll.zero⟩

/-! ## The six tables of `schema` -/

/-- Row of `profiles`, primary key `id`. -/
structure ProfileRow where
  id : Int
  first_name : String
  last_name : String
  screen_name : String
  photo : String
deriving DecidableEq, Repr

/-- Row of `topics`, primary key `id`. -/
structure TopicRow where
  id : Int
  title : String
  is_closed : Bool
  is_fixed : Bool
  created_at : Int
  updated_at : Int
  created_by : Int
  updated_by : Int
  deleted : Bool
deriving DecidableEq, Repr

/-- Row of `comments`, primary key `id`. -/
structure CommentRow where
  id : Int
  from_id : Int
  date : Int
  text : String
  likes : Int
  reply_to_uid : Int
  reply_to_cid : Int
  topic_id : Int
  profile_id : Int
deriving DecidableEq, Repr

/-- Row of `attachments`, primary key `(comment_id, content)`. -/
structure AttachmentRow where
  content : String
  comment_id : Int
deriving DecidableEq, Repr

/-- Row of `polls`, primary key `id`. -/
structure PollRow where
  id : Int
  question : String
  votes : Int
  multiple : Bool
  end_date : Int
  closed : Bool
  topic_id : Int
deriving DecidableEq, Repr

/-- Row of `poll_answers`, primary key `id`. -/
structure PollAnswerRow where
  id : Int
  text : String
  votes : Int
  rate : Rat
  poll_id : Int
deriving DecidableEq, Repr

/-- Persisted state: the contents of the six tables. -/
structure Tables where
  profiles : List ProfileRow
  topics : List TopicRow
  comments : List CommentRow
  attachments : List AttachmentRow
  polls : List PollRow
  poll_answers : List PollAnswerRow
deriving DecidableEq, Repr

/-- Database with six empty tables. -/
def Tables.empty : Tables := ⟨[], [], [], [], [], []⟩

/-- Primary key of an `attachments` row. -/
def AttachmentRow.key (r : AttachmentRow) : Int × String := (r.comment_id, r.content)

/-! ### `ON CONFLICT ... DO UPDATE SET ...` clauses, one per query string -/

/-- Clause of `profileQuery`: `first_name = $2, last_name = $3, screen_name = $4, photo = $5`. -/
def ProfileRow.onConflict (old new : ProfileRow) : ProfileRow :=
  { old with first_name := new.first_name, last_name := new.last_name,
             screen_name := new.screen_name, photo := new.photo }

/-- Clause of `topicQuery`: every column but `id` and `deleted`. -/
def TopicRow.onConflict (old new : TopicRow) : TopicRow :=
  { old with title := new.title, is_closed := new.is_closed, is_fixed := new.is_fixed,
             created_at := new.created_at, updated_at := new.updated_at,
             created_by := new.created_by, updated_by := new.updated_by }

/-- Clause of `commentQuery`: every column but `id`, `topic_id` and `profile_id`. -/
def CommentRow.onConflict (old new : CommentRow) : CommentRow :=
  { old with from_id := new.from_id, date := new.date, text := new.text, likes := new.likes,
             reply_to_uid := new.reply_to_uid, reply_to_cid := new.reply_to_cid }

/-- Clause of `attachmentQuery`: `content = $1, comment_id = $2`. -/
def AttachmentRow.onConflict (old new : AttachmentRow) : AttachmentRow :=
  { old with content := new.content, comment_id := new.comment_id }

/-- Clause of `pollQuery`: every column but `id` and `topic_id`. -/
def PollRow.onConflict (old new : PollRow) : PollRow :=
  { old with question := new.question, votes := new.votes, multiple := new.multiple,
             end_date := new.end_date, closed := new.closed }

/-- Clause of `pollAnswerQuery`: `text = $2, votes = $3, rate = $4`. -/
def PollAnswerRow.onConflict (old new : PollAnswerRow) : PollAnswerRow :=
  { old with text := new.text, votes := new.votes, rate := new.rate }

/-- Insert-or-overwrite on one table: when a row carries the key of `new`, the
conflict clause is applied to it; otherwise `new` is added. -/
def upsert {ρ κ : Type} [DecidableEq κ] (key : ρ → κ) (onConflict : ρ → ρ → ρ)
    (new : ρ) (t : List ρ) : List ρ :=
  if t.any (fun r => decide (key r = key new)) then
    t.map (fun r => if key r = key new then onConflict r new else r)
  else
    t ++ [new]

/-- Write statement with its positional parameters, which for
`INSERT INTO t VALUES ($1, ...)` are the columns of `t` in declaration order. -/
inductive Stmt where
  | upsertProfile (r : ProfileRow)
  | upsertTopic (r : TopicRow)
  | upsertComment (r : CommentRow)
  | upsertAttachment (r : AttachmentRow)
  | upsertPoll (r : PollRow)
  | upsertPollAnswer (r : PollAnswerRow)
deriving DecidableEq, Repr

/-- Effect of one accepted statement on the tables. -/
def Stmt.apply : Stmt → Tables → Tables
  | .upsertProfile r, db =>
      { db with profiles := upsert ProfileRow.id ProfileRow.onConflict r db.profiles }
  | .upsertTopic r, db =>
      { db with topics := upsert TopicRow.id TopicRow.onConflict r db.topics }
  | .upsertComment r, db =>
      { db with comments := upsert CommentRow.id CommentRow.onConflict r db.comments }
  | .upsertAttachment r, db =>
      { db with attachments := upsert AttachmentRow.key AttachmentRow.onConflict r db.attachments }
  | .upsertPoll r, db =>
      { db with polls := upsert PollRow.id PollRow.onConflict r db.polls }
  | .upsertPollAnswer r, db =>
      { db with poll_answers :=
          upsert PollAnswerRow.id PollAnswerRow.onConflict r db.poll_answers }

/-- Effect of a list of accepted statements, in order. -/
def applyAll (body : List Stmt) (db : Tables) : Tables :=
  body.foldl (fun cur s => s.apply cur) db

/-! ## Storage behaviour and `sx.Do` -/

/-- Errors seen by `processFile`: `sql.ErrNoRows`, or any other failure. -/
inductive DbError where
  | errNoRows
  | failure
deriving DecidableEq, Repr

/-- What the storage engine refuses during one call of `processFile`, as a
function of the current contents: a failing lookup, a transaction that cannot
begin, a refused statement (constraint violation, lost connection), a failing
commit. Two calls may meet different behaviours. -/
structure Storage where
  lookupFails : Tables → Int → Bool
  beginFails : Tables → Bool
  rejects : Tables → Stmt → Bool
  commitFails : Tables → Bool

/-- Storage that never refuses anything. -/
def Storage.reliable : Storage :=
  ⟨fun _ _ => false, fun _ => false, fun _ _ => false, fun _ => false⟩

/-- Storage that answers lookups but refuses every write statement. -/
def Storage.refusing : Storage :=
  ⟨fun _ _ => false, fun _ => false, fun _ _ => true, fun _ => false⟩

/-- How a call of `saveOrUpdateTopic` ends: it returns `nil`, it returns an
error, or a run-time panic raised inside the closure leaves it (not an error
of a `Must` method, so `sx.Do` rolls back and lets it propagate). -/
inductive WriteResult where
  | ok
  | failed
  | panicked
deriving DecidableEq, Repr

/-- Statements of a transaction body run in order (`tx.MustExec`); the first
refused statement aborts the body. -/
def execAll (st : Storage) : List Stmt → Tables → Option Tables
  | [], cur => some cur
  | s :: rest, cur => if st.rejects cur s then none else execAll st rest (s.apply cur)

/-- Transaction `sx.Do` around the closure, which either panics before its
first statement (`none`) or issues a list of `MustExec` calls: all-or-nothing;
unless it commits, the tables are as before. -/
def sxDo (st : Storage) (db : Tables) (closure : Option (List Stmt)) : Tables × WriteResult :=
  if st.beginFails db then (db, WriteResult.failed)
  else
    match closure with
    | none => (db, WriteResult.panicked)
    | some body =>
      match execAll st body db with
      | none => (db, WriteResult.failed)
      | some cur =>
        if st.commitFails cur then (db, WriteResult.failed) else (cur, WriteResult.ok)

/-- Order in which one `range` statement visits the entries of a map: some
rearrangement of the entries. Go chooses it anew for every `range`, so two
calls of `saveOrUpdateTopic` need not share it. -/
structure RangeOrder where
  run : List (Sigma fun _ : Int => Profile) → List (Sigma fun _ : Int => Profile)
  perm : ∀ l, (run l).Perm l

/-- Visiting the entries as stored. -/
def RangeOrder.stored : RangeOrder := ⟨fun l => l, fun l => List.Perm.refl l⟩

/-- Visiting the entries in the opposite order. -/
def RangeOrder.reversed : RangeOrder := ⟨fun l => l.reverse, fun l => List.reverse_perm l⟩

/-! ## `findTopic`, `saveOrUpdateTopic`, `processFile` -/

/-- Result of `SELECT id, updated_at FROM topics WHERE id = $1` scanned into a
fresh `vk.Topic`: no row gives the zero value and `sql.ErrNoRows`. -/
def lookupTopic (db : Tables) (id : Int) : Topic × Option DbError :=
  match db.topics.find? (fun r => decide (r.id = id)) with
  | some r => ({ Topic.zero with ID := r.id, UpdatedAt := r.updated_at }, none)
  | none => (Topic.zero, some DbError.errNoRows)

/-- Lookup `findTopic`: the query under `sx.Do`, unless the storage fails. -/
def findTopic (st : Storage) (db : Tables) (id : Int) : Topic × Option DbError :=
  if st.lookupFails db id then (Topic.zero, some DbError.failure)
  else lookupTopic db id

/-- An allocated map after `topic.Profiles[topic.CreatedBy.ID] = topic.CreatedBy`
and `topic.Profiles[topic.UpdatedBy.ID] = topic.UpdatedBy`. -/
def forcedProfiles (topic : Topic) (m : ProfileMap) : ProfileMap :=
  (m.insert topic.CreatedBy.ID topic.CreatedBy).insert topic.UpdatedBy.ID topic.UpdatedBy

/-- Parameters `$1 .. $5` of `profileQuery` for one profile of the range loop. -/
def profileRow (profile : Profile) : ProfileRow :=
  ⟨profile.ID, profile.FirstName, profile.LastName, profile.ScreenName, profile.Photo⟩

/-- Parameters `$1 .. $9` of `topicQuery`; the last one is the literal `false`. -/
def topicRow (topic : Topic) : TopicRow :=
  ⟨topic.ID, topic.Title, topic.IsClosed, topic.IsFixed, topic.CreatedAt, topic.UpdatedAt,
    topic.CreatedBy.ID, topic.UpdatedBy.ID, false⟩

/-- Parameters `$1 .. $9` of `commentQuery` for one comment; `$8` is `topic.ID`
and `$9` is `comment.FromID`. -/
def commentRow (topic : Topic) (comment : Comment) : CommentRow :=
  ⟨comment.ID, comment.FromID, comment.Date, comment.Text, comment.Likes, comment.ReplyToUID,
    comment.ReplyToCID, topic.ID, comment.FromID⟩

/-- Parameters `$1, $2` of `attachmentQuery`: the attachment and `comment.ID`. -/
def attachmentRow (comment : Comment) (attachment : String) : AttachmentRow :=
  ⟨attachment, comment.ID⟩

/-- Parameters `$1 .. $7` of `pollQuery`; `$7` is `topic.ID`. -/
def pollRow (topic : Topic) : PollRow :=
  ⟨topic.Poll.ID, topic.Poll.Question, topic.Poll.Votes, topic.Poll.Multiple,
    topic.Poll.EndDate, topic.Poll.Closed, topic.ID⟩

/-- Parameters `$1 .. $5` of `pollAnswerQuery` for one answer, as passed:
`answer.ID, answer.Text, answer.Votes, answer.Votes, topic.Poll.ID`. -/
def pollAnswerRow (topic : Topic) (answer : PollAnswer) : PollAnswerRow :=
  ⟨answer.ID, answer.Text, answer.Votes, (answer.Votes : Rat), topic.Poll.ID⟩

/-- Call `tx.MustExec(profileQuery, ...)`. -/
def profileStmt (profile : Profile) : Stmt := Stmt.upsertProfile (profileRow profile)

/-- Call `tx.MustExec(topicQuery, ...)`. -/
def topicStmt (topic : Topic) : Stmt := Stmt.upsertTopic (topicRow topic)

/-- Call `tx.MustExec(commentQuery, ...)`. -/
def commentStmt (topic : Topic) (comment : Comment) : Stmt :=
  Stmt.upsertComment (commentRow topic comment)

/-- Call `tx.MustExec(attachmentQuery, attachment, comment.ID)`. -/
def attachmentStmt (comment : Comment) (attachment : String) : Stmt :=
  Stmt.upsertAttachment (attachmentRow comment attachment)

/-- Call `tx.MustExec(pollQuery, ...)`. -/
def pollStmt (topic : Topic) : Stmt := Stmt.upsertPoll (pollRow topic)

/-- Call `tx.MustExec(pollAnswerQuery, ...)`. -/
def pollAnswerStmt (topic : Topic) (answer : PollAnswer) : Stmt :=
  Stmt.upsertPollAnswer (pollAnswerRow topic answer)

/-- Statements issued, in program order, by the function passed to `sx.Do` in
`saveOrUpdateTopic` once the two assignments to the allocated map `m` are done. -/
def closureStatements (ord : RangeOrder) (topic : Topic) (m : ProfileMap) : List Stmt :=
  (ord.run (forcedProfiles topic m).entries).map (fun e => profileStmt e.2)
    ++ [topicStmt topic]
    ++ topic.Comments.flatMap
        (fun c => commentStmt topic c :: c.Attachments.map (attachmentStmt c))
    ++ [pollStmt topic]
    ++ topic.Poll.Answers.map (pollAnswerStmt topic)

/-- The function passed to `sx.Do` in `saveOrUpdateTopic`: on a nil map the
first assignment panics (`assignment to entry in nil map`) before any
statement, which is `none`; otherwise the statements follow. -/
def transactionBody (ord : RangeOrder) (topic : Topic) : Option (List Stmt) :=
  match topic.Profiles with
  | none => none
  | some m => some (closureStatements ord topic m)

/-- The statements `saveOrUpdateTopic` issues for a document when none is
refused: none at all when the closure panics. -/
def issuedStatements (ord : RangeOrder) (topic : Topic) : List Stmt :=
  (transactionBody ord topic).getD []

/-- Writer `saveOrUpdateTopic`: the closure run under `sx.Do`. -/
def saveOrUpdateTopic (st : Storage) (ord : RangeOrder) (db : Tables) (topic : Topic) :
    Tables × WriteResult :=
  sxDo st db (transactionBody ord topic)

/-- What `processFile` receives for a file name: an unreadable file, bytes that
do not decode, or a decoded topic. -/
inductive FileInput where
  | unreadable
  | undecodable
  | decoded (topic : Topic)

/-- The line `processFile` logs; `panicked` stands for no line at all, when a
run-time panic leaves `processFile` and ends the program. -/
inductive LogLine where
  | couldNotRead
  | couldNotDecode
  | errorReadingData
  | alreadyUpdated
  | olderThanDatabase
  | couldNotUpdate
  | updated
  | couldNotCreate
  | created
  | panicked
deriving DecidableEq, Repr

/-- Result of one `processFile` call: the tables afterwards, the line logged,
and the documents handed to `saveOrUpdateTopic` (none or one). -/
structure Run where
  db : Tables
  log : LogLine
  saved : List Topic

/-- Per-document step `processFile`. -/
def processFile (st : Storage) (ord : RangeOrder) (file : FileInput) (db : Tables) : Run :=
  match file with
  | .unreadable => ⟨db, .couldNotRead, []⟩
  | .undecodable => ⟨db, .couldNotDecode, []⟩
  | .decoded topic =>
    let found := findTopic st db topic.ID
    let topicFromDB := found.1
    let err := found.2
    if err ≠ none ∧ err ≠ some DbError.errNoRows then
      ⟨db, .errorReadingData, []⟩
    else if topicFromDB.ID ≠ 0 ∧ topic.UpdatedAt = topicFromDB.UpdatedAt then
      ⟨db, .alreadyUpdated, []⟩
    else if topicFromDB.UpdatedAt > topic.UpdatedAt then
      ⟨db, .olderThanDatabase, []⟩
    else
      let written := saveOrUpdateTopic st ord db topic
      if written.2 = WriteResult.panicked then
        ⟨written.1, .panicked, [topic]⟩
      else
        let updating : Bool := decide (topicFromDB.ID ≠ 0)
        if updating then
          if written.2 ≠ WriteResult.ok then ⟨written.1, .couldNotUpdate, [topic]⟩
          else ⟨written.1, .updated, [topic]⟩
        else
          if written.2 ≠ WriteResult.ok then ⟨written.1, .couldNotCreate, [topic]⟩
          else ⟨written.1, .created, [topic]⟩

/-- One call of `processFile` by the worker: the file, with the storage
behaviour and the range order this call meets. -/
structure Call where
  st : Storage
  ord : RangeOrder
  file : FileInput

/-- Sequential processing of a list of files by a single worker; a panic ends
the program, so the remaining files are not processed. -/
def processAll : List Call → Tables → Tables
  | [], db => db
  | c :: rest, db =>
    if (processFile c.st c.ord c.file db).log = LogLine.panicked then
      (processFile c.st c.ord c.file db).db
    else
      processAll rest (processFile c.st c.ord c.file db).db

/-- Value of `updated_at` the lookup query finds for a topic identity. -/
def storedUpdatedAt (db : Tables) (id : Int) : Option Int :=
  (db.topics.find? (fun r => decide (r.id = id))).map TopicRow.updated_at

/-! ## Auxiliary definitions used to state and prove the properties -/

/-- Effect of an upsert on a single row once its key is known to be present. -/
def touch {ρ κ : Type} [DecidableEq κ] (key : ρ → κ) (onConflict : ρ → ρ → ρ)
    (new : ρ) (r : ρ) : ρ :=
  if key r = key new then onConflict r new else r

/-- Effect of a sequence of upserts on a single row whose key is present. -/
def touchAll {ρ κ : Type} [DecidableEq κ] (key : ρ → κ) (onConflict : ρ → ρ → ρ)
    (rows : List ρ) (r : ρ) : ρ :=
  rows.foldl (fun x new => touch key onConflict new x) r

/-- A sequence of upserts on one table. -/
def upsertAll {ρ κ : Type} [DecidableEq κ] (key : ρ → κ) (onConflict : ρ → ρ → ρ)
    (rows : List ρ) (t : List ρ) : List ρ :=
  rows.foldl (fun cur new => upsert key onConflict new cur) t

/-- Row of a statement against `profiles`. -/
def Stmt.profileRow? : Stmt → Option ProfileRow
  | .upsertProfile r => some r
  | _ => none

/-- Row of a statement against `topics`. -/
def Stmt.topicRow? : Stmt → Option TopicRow
  | .upsertTopic r => some r
  | _ => none

/-- Row of a statement against `comments`. -/
def Stmt.commentRow? : Stmt → Option CommentRow
  | .upsertComment r => some r
  | _ => none

/-- Row of a statement against `attachments`. -/
def Stmt.attachmentRow? : Stmt → Option AttachmentRow
  | .upsertAttachment r => some r
  | _ => none

/-- Row of a statement against `polls`. -/
def Stmt.pollRow? : Stmt → Option PollRow
  | .upsertPoll r => some r
  | _ => none

/-- Row of a statement against `poll_answers`. -/
def Stmt.pollAnswerRow? : Stmt → Option PollAnswerRow
  | .upsertPollAnswer r => some r
  | _ => none

/-- Position of a statement's table in the write order: profiles, the topic,
comments with their attachments, the poll, poll answers. -/
def Stmt.phase : Stmt → Nat
  | .upsertProfile _ => 0
  | .upsertTopic _ => 1
  | .upsertComment _ => 2
  | .upsertAttachment _ => 2
  | .upsertPoll _ => 3
  | .upsertPollAnswer _ => 4

/-- An entity that other rows refer to by identity. -/
inductive EntityRef where
  | profile (id : Int)
  | topic (id : Int)
  | comment (id : Int)
  | poll (id : Int)
deriving DecidableEq, Repr

/-- The referable entity a statement writes, if any. -/
def Stmt.entity : Stmt → Option EntityRef
  | .upsertProfile r => some (.profile r.id)
  | .upsertTopic r => some (.topic r.id)
  | .upsertComment r => some (.comment r.id)
  | .upsertPoll r => some (.poll r.id)
  | _ => none

/-- The parents a statement's row refers to: topic to its creator and updater
profiles, comment to topic, attachment to comment, poll to topic, poll answer
to poll. -/
def Stmt.parents : Stmt → List EntityRef
  | .upsertProfile _ => []
  | .upsertTopic r => [.profile r.created_by, .profile r.updated_by]
  | .upsertComment r => [.topic r.topic_id]
  | .upsertAttachment r => [.comment r.comment_id]
  | .upsertPoll r => [.topic r.topic_id]
  | .upsertPollAnswer r => [.poll r.poll_id]

/-- Every statement of the list refers only to parents that are already
available: in `seen`, or written by an earlier statement of the list. -/
def parentsSeen (seen : EntityRef → Prop) : List Stmt → Prop
  | [] => True
  | s :: rest =>
      (∀ ref ∈ s.parents, seen ref) ∧ parentsSeen (fun e => seen e ∨ s.entity = some e) rest

/-- Identities of the profile entities of a document: the participants of the
map, the creator and the updater. -/
def Topic.profileKeys (topic : Topic) : List Int :=
  (match topic.Profiles with
    | none => []
    | some m => m.entries.map (fun e => e.2.ID))
    ++ [topic.CreatedBy.ID, topic.UpdatedBy.ID]

/-- Identities of the comments of a document. -/
def Topic.commentKeys (topic : Topic) : List Int :=
  topic.Comments.map Comment.ID

/-- Keys of the attachments of a document. -/
def Topic.attachmentKeys (topic : Topic) : List (Int × String) :=
  topic.Comments.flatMap (fun c => c.Attachments.map (fun a => (c.ID, a)))

/-- Identities of the poll answers of a document. -/
def Topic.answerKeys (topic : Topic) : List Int :=
  topic.Poll.Answers.map PollAnswer.ID

/-- Table `t2` has at least as many rows as `t`, no key of `t` is missing from
`t2`, and the rows whose key is not listed in `keys` are the same in both. -/
def Preserved {ρ κ : Type} [DecidableEq κ] (key : ρ → κ) (keys : List κ) (t t2 : List ρ) : Prop :=
  t.length ≤ t2.length ∧
  (∀ r ∈ t, ∃ r2 ∈ t2, key r2 = key r) ∧
  (∀ k, k ∉ keys → t2.filter (fun r => decide (key r = k)) = t.filter (fun r => decide (key r = k)))

/-- Identities carried by the profile upserts of a statement list, in order. -/
def upsertedProfileIds (body : List Stmt) : List Int :=
  (body.filterMap Stmt.profileRow?).map ProfileRow.id

/-! ## Concrete documents and states -/

/-- A participant. -/
def alice : Profile := ⟨7, "Alice", "A", "alice", "a.png"⟩

/-- Participant map of Scenario A: participant 7 under key 7. -/
def mapA : ProfileMap := AList.singleton 7 alice

/-- Scenario A document: topic 1 at version 100 with one comment and no poll. -/
def docA : Topic :=
  ⟨1, "Hi", false, false, 90, 100, alice, alice, some mapA,
    [⟨10, 7, 95, "first", 0, 0, 0, ["photo1"]⟩], Poll.zero⟩

/-- Document for a topic not yet stored, with a timestamp below zero. -/
def docNegative : Topic := { docA with UpdatedAt := -1 }

/-- Document whose topic identity is 0. -/
def docZero : Topic := { docA with ID := 0 }

/-- State holding topic 0 at version 100 and its creator. -/
def dbZero : Tables :=
  ⟨[⟨7, "Alice", "A", "alice", "a.png"⟩], [⟨0, "Hi", false, false, 90, 100, 7, 7, false⟩],
    [], [], [], []⟩

/-- Another participant, in two versions that share the identity 9. -/
def nina : Profile := ⟨9, "Nina", "N", "nina", "n.png"⟩

/-- Second version of participant 9. -/
def ninaNew : Profile := ⟨9, "Nina", "N", "nina", "n2.png"⟩

/-- Document whose participant map stores profile 9 under the keys 1 and 2. -/
def docMiskeyed : Topic :=
  { docA with Profiles := some (AList.insert 2 ninaNew (AList.singleton 1 nina)) }

/-- State after Scenario A: `docA` created in empty tables. -/
def dbA : Tables :=
  (processFile Storage.reliable RangeOrder.stored (.decoded docA) Tables.empty).db

/-- Scenario C document: version 50 of topic 1. -/
def docC : Topic := { docA with UpdatedAt := 50 }

/-- Scenario D document: version 150 of topic 1, new title, no comments. -/
def docD : Topic := { docA with UpdatedAt := 150, Title := "Hi v2", Comments := [] }

/-- Document with a poll of two answers whose rates differ from their votes. -/
def docPoll : Topic :=
  { docA with Poll := ⟨5, "Q?", 4, [⟨50, "yes", 1, 25⟩, ⟨51, "no", 3, 75⟩], false, 0, false⟩ }

/-- Document of topic 0 whose participant map stores profile 9 under the keys
1 and 2, in two versions. -/
def docZeroMiskeyed : Topic := { docMiskeyed with ID := 0 }

/-- Document decoded from a file without a `profiles` object, such as
`{"id":1,"updated_at":100,"created_by":{"id":7},"updated_by":{"id":7}}`: the
participant map is nil. -/
def docNoProfiles : Topic := { docA with Profiles := none }

/-- A participant listed in the map. -/
def bob : Profile := ⟨8, "Bob", "B", "bob", "b.png"⟩

/-- The updater of `docUnlisted`. -/
def carol : Profile := ⟨6, "Carol", "C", "carol", "c.png"⟩

/-- Participant map that lists participant 8 only. -/
def mapUnlisted : ProfileMap := AList.singleton 8 bob

/-- Document whose participant map lists participant 8 only, and neither its
creator 7 nor its updater 6. -/
def docUnlisted : Topic := { docA with UpdatedBy := carol, Profiles := some mapUnlisted }

/-- State after Scenario A in which the polls row 0 of topic 1 holds a real
poll. -/
def dbPollZero : Tables := { dbA with polls := [⟨0, "Which colour?", 5, true, 9, true, 1⟩] }

/-! ## One table: properties of `upsert` -/

section OneTable

variable {ρ κ : Type} [DecidableEq κ] (key : ρ → κ) (oc : ρ → ρ → ρ)

theorem upsert_of_present (new : ρ) (t : List ρ) (h : ∃ r ∈ t, key r = key new) :
    upsert key oc new t = t.map (touch key oc new) := by
  have : t.any (fun r => decide (key r = key new)) = true := by
    simpa [List.any_eq_true] using h
  simp only [upsert, this, if_true]
  rfl

theorem upsert_of_absent (new : ρ) (t : List ρ) (h : ∀ r ∈ t, key r ≠ key new) :
    upsert key oc new t = t ++ [new] := by
  have : t.any (fun r => decide (key r = key new)) = false := by
    simpa [List.any_eq_false] using h
  simp [upsert, this]

theorem key_touch (hk : ∀ o n, key o = key n → key (oc o n) = key o) (new r : ρ) :
    key (touch key oc new r) = key r := by
  unfold touch
  split
  · rename_i h
    exact hk _ _ h
  · rfl

theorem key_touchAll (hk : ∀ o n, key o = key n → key (oc o n) = key o) (rows : List ρ) (r : ρ) :
    key (touchAll key oc rows r) = key r := by
  induction rows generalizing r with
  | nil => rfl
  | cons n rest ih =>
    simp only [touchAll, List.foldl_cons] at ih ⊢
    rw [ih, key_touch key oc hk]

theorem upsert_keeps_keys (hk : ∀ o n, key o = key n → key (oc o n) = key o) (new : ρ) (t : List ρ)
    (r : ρ) (hr : r ∈ t) : ∃ r2 ∈ upsert key oc new t, key r2 = key r := by
  by_cases h : ∃ x ∈ t, key x = key new
  · rw [upsert_of_present key oc new t h]
    exact ⟨touch key oc new r, List.mem_map_of_mem _ hr, key_touch key oc hk new r⟩
  · have h2 : ∀ x ∈ t, key x ≠ key new := fun x hx hxe => h ⟨x, hx, hxe⟩
    rw [upsert_of_absent key oc new t h2]
    exact ⟨r, List.mem_append_left _ hr, rfl⟩

theorem upsert_has_key (hk : ∀ o n, key o = key n → key (oc o n) = key o) (new : ρ) (t : List ρ) :
    ∃ r2 ∈ upsert key oc new t, key r2 = key new := by
  by_cases h : ∃ x ∈ t, key x = key new
  · obtain ⟨x, hx, hxe⟩ := h
    obtain ⟨r2, h2, h3⟩ := upsert_keeps_keys key oc hk new t x hx
    exact ⟨r2, h2, h3.trans hxe⟩
  · have h2 : ∀ x ∈ t, key x ≠ key new := fun x hx hxe => h ⟨x, hx, hxe⟩
    rw [upsert_of_absent key oc new t h2]
    exact ⟨new, by simp, rfl⟩

theorem upsert_filter_other (hk : ∀ o n, key o = key n → key (oc o n) = key o) (new : ρ) (t : List ρ)
    (k : κ) (hne : k ≠ key new) :
    (upsert key oc new t).filter (fun r => decide (key r = k))
      = t.filter (fun r => decide (key r = k)) := by
  by_cases h : ∃ x ∈ t, key x = key new
  · rw [upsert_of_present key oc new t h]
    clear h
    induction t with
    | nil => rfl
    | cons x xs ih =>
      simp only [List.map_cons, List.filter_cons, key_touch key oc hk]
      by_cases hx : key x = k
      · subst hx
        simp [touch, hne, ih]
      · simp [hx, ih]
  · have h2 : ∀ x ∈ t, key x ≠ key new := fun x hx hxe => h ⟨x, hx, hxe⟩
    rw [upsert_of_absent key oc new t h2]
    have : ¬ key new = k := fun e => hne e.symm
    simp [List.filter_append, this]

theorem upsertAll_nil (t : List ρ) : upsertAll key oc [] t = t := rfl

theorem upsertAll_cons (n : ρ) (rows t : List ρ) :
    upsertAll key oc (n :: rows) t = upsertAll key oc rows (upsert key oc n t) := rfl

theorem upsertAll_append (rows1 rows2 t : List ρ) :
    upsertAll key oc (rows1 ++ rows2) t = upsertAll key oc rows2 (upsertAll key oc rows1 t) := by
  simp [upsertAll, List.foldl_append]

theorem upsertAll_keeps_keys (hk : ∀ o n, key o = key n → key (oc o n) = key o) (rows t : List ρ)
    (r : ρ) (hr : r ∈ t) : ∃ r2 ∈ upsertAll key oc rows t, key r2 = key r := by
  induction rows generalizing t r with
  | nil => exact ⟨r, hr, rfl⟩
  | cons n rest ih =>
    obtain ⟨r1, h1, e1⟩ := upsert_keeps_keys key oc hk n t r hr
    obtain ⟨r2, h2, e2⟩ := ih (upsert key oc n t) r1 h1
    exact ⟨r2, h2, e2.trans e1⟩

theorem upsertAll_has_keys (hk : ∀ o n, key o = key n → key (oc o n) = key o) (rows t : List ρ)
    (n : ρ) (hn : n ∈ rows) : ∃ r2 ∈ upsertAll key oc rows t, key r2 = key n := by
  induction rows generalizing t with
  | nil => cases hn
  | cons m rest ih =>
    rw [upsertAll_cons]
    rcases List.mem_cons.mp hn with rfl | hrest
    · obtain ⟨r1, h1, e1⟩ := upsert_has_key key oc hk n t
      obtain ⟨r2, h2, e2⟩ := upsertAll_keeps_keys key oc hk rest _ r1 h1
      exact ⟨r2, h2, e2.trans e1⟩
    · exact ih _ hrest

theorem upsertAll_filter_other (hk : ∀ o n, key o = key n → key (oc o n) = key o) (rows t : List ρ)
    (k : κ) (hk2 : k ∉ rows.map key) :
    (upsertAll key oc rows t).filter (fun r => decide (key r = k))
      = t.filter (fun r => decide (key r = k)) := by
  induction rows generalizing t with
  | nil => rfl
  | cons n rest ih =>
    rw [upsertAll_cons]
    simp only [List.map_cons, List.mem_cons, not_or] at hk2
    rw [ih _ hk2.2, upsert_filter_other key oc hk n t k hk2.1]

theorem length_le_upsert (new : ρ) (t : List ρ) :
    t.length ≤ (upsert key oc new t).length := by
  unfold upsert
  split
  · simp
  · simp

theorem length_le_upsertAll (rows t : List ρ) :
    t.length ≤ (upsertAll key oc rows t).length := by
  induction rows generalizing t with
  | nil => exact le_refl _
  | cons n rest ih =>
    rw [upsertAll_cons]
    exact le_trans (length_le_upsert key oc n t) (ih _)

theorem upsertAll_preserved (hk : ∀ o n, key o = key n → key (oc o n) = key o) (rows t : List ρ)
    (keys : List κ) (hsub : ∀ n ∈ rows, key n ∈ keys) :
    Preserved key keys t (upsertAll key oc rows t) := by
  refine ⟨length_le_upsertAll key oc rows t,
    fun r hr => upsertAll_keeps_keys key oc hk rows t r hr, fun k hknot => ?_⟩
  apply upsertAll_filter_other key oc hk
  intro hmem
  obtain ⟨n, hn, rfl⟩ := List.mem_map.mp hmem
  exact hknot (hsub n hn)

end OneTable


section Idempotence

variable {ρ κ : Type} [DecidableEq κ] (key : ρ → κ) (oc : ρ → ρ → ρ)

theorem touchAll_cons (n : ρ) (rows : List ρ) (r : ρ) :
    touchAll key oc (n :: rows) r = touchAll key oc rows (touch key oc n r) := rfl

theorem touchAll_append (rows1 rows2 : List ρ) (r : ρ) :
    touchAll key oc (rows1 ++ rows2) r = touchAll key oc rows2 (touchAll key oc rows1 r) := by
  simp [touchAll, List.foldl_append]

theorem upsertAll_of_present (hk : ∀ o n, key o = key n → key (oc o n) = key o) (rows t : List ρ)
    (h : ∀ n ∈ rows, ∃ r ∈ t, key r = key n) :
    upsertAll key oc rows t = t.map (touchAll key oc rows) := by
  induction rows generalizing t with
  | nil =>
    have : touchAll key oc ([] : List ρ) = id := rfl
    rw [this, List.map_id]
    rfl
  | cons n rest ih =>
    rw [upsertAll_cons, upsert_of_present key oc n t (h n (List.mem_cons_self _ _)), ih]
    · simp [List.map_map, Function.comp_def, touchAll_cons]
    · intro m hm
      obtain ⟨r, hr, e⟩ := h m (List.mem_cons_of_mem _ hm)
      exact ⟨touch key oc n r, List.mem_map_of_mem _ hr, (key_touch key oc hk n r).trans e⟩

theorem oc_touchAll (habs : ∀ x a b, oc (oc x a) b = oc x b) (rows : List ρ) (x s : ρ) :
    oc (touchAll key oc rows x) s = oc x s := by
  induction rows generalizing x with
  | nil => rfl
  | cons n rest ih =>
    rw [touchAll_cons, ih]
    unfold touch
    split
    · exact habs _ _ _
    · rfl

theorem touchAll_of_no_key (rows : List ρ) (x : ρ) (h : ∀ n ∈ rows, key n ≠ key x) :
    touchAll key oc rows x = x := by
  induction rows with
  | nil => rfl
  | cons n rest ih =>
    rw [touchAll_cons]
    have hn : key x ≠ key n := fun e => h n (List.mem_cons_self _ _) e.symm
    have : touch key oc n x = x := by simp [touch, hn]
    rw [this]
    exact ih (fun m hm => h m (List.mem_cons_of_mem _ hm))

theorem touchAll_fixes (hk : ∀ o n, key o = key n → key (oc o n) = key o)
    (habs : ∀ x a b, oc (oc x a) b = oc x b) (hself : ∀ s, oc s s = s)
    (rows t : List ρ) : ∀ r ∈ upsertAll key oc rows t, touchAll key oc rows r = r := by
  induction rows using List.reverseRecOn with
  | nil => intro r _; rfl
  | append_singleton front s ih =>
    intro r hr
    rw [upsertAll_append, upsertAll_cons, upsertAll_nil] at hr
    rw [touchAll_append, touchAll_cons]
    show touch key oc s (touchAll key oc front r) = r
    by_cases hpres : ∃ x ∈ upsertAll key oc front t, key x = key s
    · rw [upsert_of_present key oc s _ hpres] at hr
      obtain ⟨x, hx, rfl⟩ := List.mem_map.mp hr
      by_cases hxs : key x = key s
      · have e1 : touch key oc s x = oc x s := by simp [touch, hxs]
        rw [e1]
        have e2 : key (touchAll key oc front (oc x s)) = key s := by
          rw [key_touchAll key oc hk, hk _ _ hxs, hxs]
        simp only [touch, e2, if_true]
        rw [oc_touchAll key oc habs, habs]
      · have e1 : touch key oc s x = x := by simp [touch, hxs]
        rw [e1, ih x hx, e1]
    · have habsent : ∀ x ∈ upsertAll key oc front t, key x ≠ key s :=
        fun x hx e => hpres ⟨x, hx, e⟩
      rw [upsert_of_absent key oc s _ habsent] at hr
      rcases List.mem_append.mp hr with hr1 | hr1
      · rw [ih r hr1]
        have : key r ≠ key s := habsent r hr1
        simp [touch, this]
      · have hrs : r = s := by simpa using hr1
        subst hrs
        have hfront : ∀ n ∈ front, key n ≠ key r := by
          intro n hn e
          obtain ⟨x, hx, e2⟩ := upsertAll_has_keys key oc hk front t n hn
          exact habsent x hx (e2.trans e)
        rw [touchAll_of_no_key key oc front r hfront]
        simp [touch, hself]

theorem upsertAll_idempotent (hk : ∀ o n, key o = key n → key (oc o n) = key o)
    (habs : ∀ x a b, oc (oc x a) b = oc x b) (hself : ∀ s, oc s s = s)
    (rows t : List ρ) :
    upsertAll key oc rows (upsertAll key oc rows t) = upsertAll key oc rows t := by
  rw [upsertAll_of_present key oc hk rows (upsertAll key oc rows t)
    (fun n hn => upsertAll_has_keys key oc hk rows t n hn)]
  conv_rhs => rw [← List.map_id (upsertAll key oc rows t)]
  apply List.map_congr_left
  intro r hr
  simpa using touchAll_fixes key oc hk habs hself rows t r hr

end Idempotence


/-! ## The six tables: statements, transactions -/

theorem applyAll_nil (db : Tables) : applyAll [] db = db := rfl

theorem applyAll_cons (s : Stmt) (body : List Stmt) (db : Tables) :
    applyAll (s :: body) db = applyAll body (s.apply db) := rfl

theorem applyAll_tables (body : List Stmt) (db : Tables) :
    applyAll body db =
      ⟨upsertAll ProfileRow.id ProfileRow.onConflict (body.filterMap Stmt.profileRow?) db.profiles,
       upsertAll TopicRow.id TopicRow.onConflict (body.filterMap Stmt.topicRow?) db.topics,
       upsertAll CommentRow.id CommentRow.onConflict (body.filterMap Stmt.commentRow?) db.comments,
       upsertAll AttachmentRow.key AttachmentRow.onConflict
         (body.filterMap Stmt.attachmentRow?) db.attachments,
       upsertAll PollRow.id PollRow.onConflict (body.filterMap Stmt.pollRow?) db.polls,
       upsertAll PollAnswerRow.id PollAnswerRow.onConflict
         (body.filterMap Stmt.pollAnswerRow?) db.poll_answers⟩ := by
  induction body generalizing db with
  | nil => rfl
  | cons s rest ih =>
    rw [applyAll_cons, ih]
    cases s <;> rfl

theorem applyAll_idempotent (body : List Stmt) (db : Tables) :
    applyAll body (applyAll body db) = applyAll body db := by
  rw [applyAll_tables body (applyAll body db), applyAll_tables body db]
  simp only
  rw [upsertAll_idempotent ProfileRow.id ProfileRow.onConflict
        (fun _ _ _ => rfl) (fun _ _ _ => rfl) (fun _ => rfl),
      upsertAll_idempotent TopicRow.id TopicRow.onConflict
        (fun _ _ _ => rfl) (fun _ _ _ => rfl) (fun _ => rfl),
      upsertAll_idempotent CommentRow.id CommentRow.onConflict
        (fun _ _ _ => rfl) (fun _ _ _ => rfl) (fun _ => rfl),
      upsertAll_idempotent AttachmentRow.key AttachmentRow.onConflict
        (fun _ _ h => h.symm) (fun _ _ _ => rfl) (fun _ => rfl),
      upsertAll_idempotent PollRow.id PollRow.onConflict
        (fun _ _ _ => rfl) (fun _ _ _ => rfl) (fun _ => rfl),
      upsertAll_idempotent PollAnswerRow.id PollAnswerRow.onConflict
        (fun _ _ _ => rfl) (fun _ _ _ => rfl) (fun _ => rfl)]

theorem execAll_eq_applyAll (st : Storage) (body : List Stmt) (db cur : Tables)
    (h : execAll st body db = some cur) : cur = applyAll body db := by
  induction body generalizing db with
  | nil =>
    simp only [execAll, Option.some.injEq] at h
    exact h.symm
  | cons s rest ih =>
    simp only [execAll] at h
    split at h
    · cases h
    · exact ih _ h

theorem sxDo_ok (st : Storage) (db : Tables) (closure : Option (List Stmt))
    (h : (sxDo st db closure).2 = WriteResult.ok) :
    ∃ body, closure = some body ∧ (sxDo st db closure).1 = applyAll body db := by
  unfold sxDo at h ⊢
  by_cases hb : st.beginFails db = true
  · simp [hb] at h
  · cases closure with
    | none => simp [hb] at h
    | some body =>
      refine ⟨body, rfl, ?_⟩
      cases he : execAll st body db with
      | none => simp [hb, he] at h
      | some cur =>
        by_cases hc : st.commitFails cur = true
        · simp [hb, he, hc] at h
        · simp only [hb, he, hc, Bool.false_eq_true, if_false]
          exact execAll_eq_applyAll st body db cur he

theorem sxDo_not_ok (st : Storage) (db : Tables) (closure : Option (List Stmt))
    (h : (sxDo st db closure).2 ≠ WriteResult.ok) : (sxDo st db closure).1 = db := by
  unfold sxDo at h ⊢
  by_cases hb : st.beginFails db = true
  · simp [hb]
  · cases closure with
    | none => simp [hb]
    | some body =>
      cases he : execAll st body db with
      | none => simp [hb, he]
      | some cur =>
        by_cases hc : st.commitFails cur = true
        · simp [hb, he, hc]
        · simp [hb, he, hc] at h

theorem saveOrUpdateTopic_ok (st : Storage) (ord : RangeOrder) (db : Tables) (topic : Topic)
    (h : (saveOrUpdateTopic st ord db topic).2 = WriteResult.ok) :
    ∃ m, topic.Profiles = some m ∧
      (saveOrUpdateTopic st ord db topic).1 = applyAll (closureStatements ord topic m) db := by
  obtain ⟨body, hbody, hdb⟩ := sxDo_ok st db (transactionBody ord topic) h
  unfold transactionBody at hbody
  cases hm : topic.Profiles with
  | none => simp [hm] at hbody
  | some m =>
    simp only [hm, Option.some.injEq] at hbody
    exact ⟨m, rfl, by rw [hbody]; exact hdb⟩

theorem lookupTopic_err (db : Tables) (id : Int) :
    (lookupTopic db id).2 = none ∨ (lookupTopic db id).2 = some DbError.errNoRows := by
  unfold lookupTopic
  cases db.topics.find? (fun r => decide (r.id = id)) with
  | none => exact Or.inr rfl
  | some r => exact Or.inl rfl

theorem findTopic_of_lookup (st : Storage) (db : Tables) (id : Int)
    (h : st.lookupFails db id = false) : findTopic st db id = lookupTopic db id := by
  simp [findTopic, h]

theorem processFile_of_lookupFails (st : Storage) (ord : RangeOrder) (d : Topic) (db : Tables)
    (h : st.lookupFails db d.ID = true) :
    (processFile st ord (.decoded d) db).db = db ∧
      (processFile st ord (.decoded d) db).log = LogLine.errorReadingData := by
  simp [processFile, findTopic, h]

/-- The two ways `processFile` can end for a decoded document: the tables are
untouched and the log is neither created nor updated; or the lookup worked,
the stored marker is not newer than the document, the map is allocated, all
statements of the writer were applied, and the log is created or updated. -/
theorem processFile_cases (st : Storage) (ord : RangeOrder) (d : Topic) (db : Tables) :
    ((processFile st ord (.decoded d) db).db = db ∧
        (processFile st ord (.decoded d) db).log ≠ LogLine.created ∧
        (processFile st ord (.decoded d) db).log ≠ LogLine.updated) ∨
      (∃ m, d.Profiles = some m ∧ st.lookupFails db d.ID = false ∧
        (lookupTopic db d.ID).1.UpdatedAt ≤ d.UpdatedAt ∧
        ((processFile st ord (.decoded d) db).log = LogLine.created ∨
          (processFile st ord (.decoded d) db).log = LogLine.updated) ∧
        (processFile st ord (.decoded d) db).db = applyAll (closureStatements ord d m) db) := by
  by_cases hlook : st.lookupFails db d.ID = true
  · obtain ⟨h1, h2⟩ := processFile_of_lookupFails st ord d db hlook
    exact Or.inl ⟨h1, by rw [h2]; decide, by rw [h2]; decide⟩
  · have hlook2 : st.lookupFails db d.ID = false := by simpa using hlook
    have hfind := findTopic_of_lookup st db d.ID hlook2
    simp only [processFile, hfind]
    split
    · exact Or.inl ⟨rfl, by simp, by simp⟩
    · split
      · exact Or.inl ⟨rfl, by simp, by simp⟩
      · split
        · exact Or.inl ⟨rfl, by simp, by simp⟩
        · rename_i hgt
          have hle : (lookupTopic db d.ID).1.UpdatedAt ≤ d.UpdatedAt := not_lt.mp hgt
          by_cases hok : (saveOrUpdateTopic st ord db d).2 = WriteResult.ok
          · obtain ⟨m, hm, hdb⟩ := saveOrUpdateTopic_ok st ord db d hok
            right
            refine ⟨m, hm, hlook2, hle, ?_, ?_⟩
            · simp only [hok]
              split
              · rename_i hp
                cases hp
              · split <;> simp
            · simp only [hok]
              split
              · rename_i hp
                cases hp
              · split <;> simpa using hdb
          · have hdb := sxDo_not_ok st db (transactionBody ord d) hok
            left
            split
            · exact ⟨hdb, by simp, by simp⟩
            · split
              · simp only [hok, ne_eq, not_false_eq_true, if_true]
                exact ⟨hdb, by simp, by simp⟩
              · simp only [hok, ne_eq, not_false_eq_true, if_true]
                exact ⟨hdb, by simp, by simp⟩


/-! ## The statements of `saveOrUpdateTopic`, table by table -/

theorem filterMap_flatMap_aux {α β γ : Type} (f : β → Option γ) (g : α → List β) (l : List α) :
    (l.flatMap g).filterMap f = l.flatMap (fun a => (g a).filterMap f) := by
  induction l with
  | nil => rfl
  | cons x xs ih => simp [List.flatMap_cons, List.filterMap_append, ih]

theorem flatMap_nil_aux {α β : Type} (l : List α) : l.flatMap (fun _ => ([] : List β)) = [] := by
  induction l with
  | nil => rfl
  | cons x xs ih => simp [List.flatMap_cons, ih]

theorem flatMap_singleton_aux {α β : Type} (f : α → β) (l : List α) :
    l.flatMap (fun a => [f a]) = l.map f := by
  induction l with
  | nil => rfl
  | cons x xs ih => simp [List.flatMap_cons, ih]

theorem filterMap_none_aux {α β : Type} (l : List α) :
    l.filterMap (fun _ => (none : Option β)) = [] := by
  induction l with
  | nil => rfl
  | cons x xs ih => simp [List.filterMap_cons, ih]

theorem filterMap_some_aux {α β : Type} (f : α → β) (l : List α) :
    l.filterMap (fun a => some (f a)) = l.map f := by
  induction l with
  | nil => rfl
  | cons x xs ih => simp [List.filterMap_cons, ih]

theorem body_profileRows (ord : RangeOrder) (topic : Topic) (m : ProfileMap) :
    (closureStatements ord topic m).filterMap Stmt.profileRow?
      = (ord.run (forcedProfiles topic m).entries).map (fun e => profileRow e.2) := by
  simp [closureStatements, List.filterMap_append, List.filterMap_map, filterMap_flatMap_aux,
    Function.comp_def, profileStmt, topicStmt, commentStmt, attachmentStmt, pollStmt,
    pollAnswerStmt, Stmt.profileRow?, flatMap_nil_aux, filterMap_none_aux,
    filterMap_some_aux]

theorem body_topicRows (ord : RangeOrder) (topic : Topic) (m : ProfileMap) :
    (closureStatements ord topic m).filterMap Stmt.topicRow? = [topicRow topic] := by
  simp [closureStatements, List.filterMap_append, List.filterMap_map, filterMap_flatMap_aux,
    Function.comp_def, profileStmt, topicStmt, commentStmt, attachmentStmt, pollStmt,
    pollAnswerStmt, Stmt.topicRow?, flatMap_nil_aux, filterMap_none_aux,
    filterMap_some_aux]

theorem body_commentRows (ord : RangeOrder) (topic : Topic) (m : ProfileMap) :
    (closureStatements ord topic m).filterMap Stmt.commentRow?
      = topic.Comments.map (commentRow topic) := by
  simp [closureStatements, List.filterMap_append, List.filterMap_map, filterMap_flatMap_aux,
    Function.comp_def, profileStmt, topicStmt, commentStmt, attachmentStmt, pollStmt,
    pollAnswerStmt, Stmt.commentRow?, flatMap_singleton_aux, filterMap_none_aux,
    filterMap_some_aux]

theorem body_attachmentRows (ord : RangeOrder) (topic : Topic) (m : ProfileMap) :
    (closureStatements ord topic m).filterMap Stmt.attachmentRow?
      = topic.Comments.flatMap (fun c => c.Attachments.map (attachmentRow c)) := by
  simp [closureStatements, List.filterMap_append, List.filterMap_map, filterMap_flatMap_aux,
    Function.comp_def, profileStmt, topicStmt, commentStmt, attachmentStmt, pollStmt,
    pollAnswerStmt, Stmt.attachmentRow?, filterMap_none_aux,
    filterMap_some_aux]

theorem body_pollRows (ord : RangeOrder) (topic : Topic) (m : ProfileMap) :
    (closureStatements ord topic m).filterMap Stmt.pollRow? = [pollRow topic] := by
  simp [closureStatements, List.filterMap_append, List.filterMap_map, filterMap_flatMap_aux,
    Function.comp_def, profileStmt, topicStmt, commentStmt, attachmentStmt, pollStmt,
    pollAnswerStmt, Stmt.pollRow?, flatMap_nil_aux, filterMap_none_aux,
    filterMap_some_aux]

theorem body_pollAnswerRows (ord : RangeOrder) (topic : Topic) (m : ProfileMap) :
    (closureStatements ord topic m).filterMap Stmt.pollAnswerRow?
      = topic.Poll.Answers.map (pollAnswerRow topic) := by
  simp [closureStatements, List.filterMap_append, List.filterMap_map, filterMap_flatMap_aux,
    Function.comp_def, profileStmt, topicStmt, commentStmt, attachmentStmt, pollStmt,
    pollAnswerStmt, Stmt.pollAnswerRow?, flatMap_nil_aux, filterMap_none_aux,
    filterMap_some_aux]

theorem issuedStatements_some (ord : RangeOrder) (topic : Topic) (m : ProfileMap)
    (hm : topic.Profiles = some m) :
    issuedStatements ord topic = closureStatements ord topic m := by
  simp [issuedStatements, transactionBody, hm]

theorem issuedStatements_none (ord : RangeOrder) (topic : Topic) (hm : topic.Profiles = none) :
    issuedStatements ord topic = [] := by
  simp [issuedStatements, transactionBody, hm]


/-! ## Properties of `processFile` and `saveOrUpdateTopic` -/

theorem find?_upsert_other {ρ κ : Type} [DecidableEq κ] (key : ρ → κ) (oc : ρ → ρ → ρ)
    (hk : ∀ o n, key o = key n → key (oc o n) = key o) (new : ρ) (t : List ρ)
    (k : κ) (hne : k ≠ key new) :
    (upsert key oc new t).find? (fun r => decide (key r = k))
      = t.find? (fun r => decide (key r = k)) := by
  have h := upsert_filter_other key oc hk new t k hne
  rw [← List.filter_head?, ← List.filter_head?, h]

theorem find?_upsert_same (new : TopicRow) (t : List TopicRow) :
    ∃ r, (upsert TopicRow.id TopicRow.onConflict new t).find? (fun r => decide (r.id = new.id))
      = some r ∧ r.id = new.id ∧ r.updated_at = new.updated_at := by
  by_cases h : ∃ x ∈ t, TopicRow.id x = TopicRow.id new
  · rw [upsert_of_present TopicRow.id TopicRow.onConflict new t h]
    obtain ⟨x, hx, hxe⟩ := h
    have hp : (fun r : TopicRow => decide (r.id = new.id)) ∘ touch TopicRow.id TopicRow.onConflict new
        = fun r => decide (r.id = new.id) := by
      funext r
      simp only [Function.comp]
      rw [show (touch TopicRow.id TopicRow.onConflict new r).id = r.id from
        key_touch TopicRow.id TopicRow.onConflict (fun _ _ _ => rfl) new r]
    rw [List.find?_map, hp]
    cases hf : t.find? (fun r => decide (r.id = new.id)) with
    | none =>
      rw [List.find?_eq_none] at hf
      exact absurd hxe (by simpa using hf x hx)
    | some r =>
      have hr : r.id = new.id := by simpa using List.find?_some hf
      refine ⟨touch TopicRow.id TopicRow.onConflict new r, rfl, ?_, ?_⟩
      · exact (key_touch TopicRow.id TopicRow.onConflict (fun _ _ _ => rfl) new r).trans hr
      · have : TopicRow.id r = TopicRow.id new := hr
        simp [touch, this, TopicRow.onConflict]
  · have h2 : ∀ x ∈ t, TopicRow.id x ≠ TopicRow.id new := fun x hx hxe => h ⟨x, hx, hxe⟩
    rw [upsert_of_absent TopicRow.id TopicRow.onConflict new t h2]
    refine ⟨new, ?_, rfl, rfl⟩
    rw [List.find?_append]
    have : t.find? (fun r => decide (r.id = new.id)) = none := by
      rw [List.find?_eq_none]
      intro x hx
      simpa using h2 x hx
    simp [this]

theorem lookupTopic_found (db : Tables) (id T : Int) (hrow : storedUpdatedAt db id = some T) :
    (lookupTopic db id).1.ID = id ∧ (lookupTopic db id).1.UpdatedAt = T ∧
      (lookupTopic db id).2 = none := by
  unfold storedUpdatedAt at hrow
  unfold lookupTopic
  cases hf : db.topics.find? (fun r => decide (r.id = id)) with
  | none => simp [hf] at hrow
  | some r =>
    have hid : r.id = id := by simpa using List.find?_some hf
    have hT : r.updated_at = T := by simpa [hf] using hrow
    simp [hid, hT]

theorem lookupTopic_missing (db : Tables) (id : Int) (hrow : storedUpdatedAt db id = none) :
    (lookupTopic db id).1.ID = 0 ∧ (lookupTopic db id).1.UpdatedAt = 0 ∧
      (lookupTopic db id).2 = some DbError.errNoRows := by
  unfold storedUpdatedAt at hrow
  unfold lookupTopic
  cases hf : db.topics.find? (fun r => decide (r.id = id)) with
  | none => simp [Topic.zero]
  | some r => simp [hf] at hrow

theorem storedUpdatedAt_applyAll_same (ord : RangeOrder) (d : Topic) (m : ProfileMap)
    (db : Tables) :
    storedUpdatedAt (applyAll (closureStatements ord d m) db) d.ID = some d.UpdatedAt := by
  rw [applyAll_tables]
  simp only [storedUpdatedAt, body_topicRows, upsertAll_cons, upsertAll_nil]
  obtain ⟨r, hr, _, hu⟩ := find?_upsert_same (topicRow d) db.topics
  have : (topicRow d).id = d.ID := rfl
  rw [this] at hr
  rw [hr]
  simpa [topicRow] using hu

theorem storedUpdatedAt_applyAll_other (ord : RangeOrder) (d : Topic) (m : ProfileMap)
    (db : Tables) (i : Int) (hne : i ≠ d.ID) :
    storedUpdatedAt (applyAll (closureStatements ord d m) db) i = storedUpdatedAt db i := by
  rw [applyAll_tables]
  simp only [storedUpdatedAt, body_topicRows, upsertAll_cons, upsertAll_nil]
  rw [find?_upsert_other TopicRow.id TopicRow.onConflict (fun _ _ _ => rfl) (topicRow d)
    db.topics i hne]

/-- A document that the stored marker makes `processFile` skip is skipped
whatever the storage does and whatever the range order is. -/
theorem processFile_skips (d : Topic) (db : Tables)
    (hskip : ((lookupTopic db d.ID).1.ID ≠ 0 ∧ d.UpdatedAt = (lookupTopic db d.ID).1.UpdatedAt) ∨
      (lookupTopic db d.ID).1.UpdatedAt > d.UpdatedAt)
    (st : Storage) (ord : RangeOrder) : (processFile st ord (.decoded d) db).db = db := by
  by_cases hlook : st.lookupFails db d.ID = true
  · exact (processFile_of_lookupFails st ord d db hlook).1
  · have hlook2 : st.lookupFails db d.ID = false := by simpa using hlook
    simp only [processFile, findTopic_of_lookup st db d.ID hlook2]
    split
    · rfl
    · split
      · rfl
      · rename_i hne
        split
        · rfl
        · rename_i hgt
          rcases hskip with h | h
          · exact absurd h hne
          · exact absurd h hgt

theorem processFile_skip_log (st : Storage) (ord : RangeOrder) (d : Topic) (db : Tables)
    (hlog : (processFile st ord (.decoded d) db).log = LogLine.alreadyUpdated ∨
      (processFile st ord (.decoded d) db).log = LogLine.olderThanDatabase) :
    ((lookupTopic db d.ID).1.ID ≠ 0 ∧ d.UpdatedAt = (lookupTopic db d.ID).1.UpdatedAt) ∨
      (lookupTopic db d.ID).1.UpdatedAt > d.UpdatedAt := by
  by_cases hlook : st.lookupFails db d.ID = true
  · rw [(processFile_of_lookupFails st ord d db hlook).2] at hlog
    simp at hlog
  · have hlook2 : st.lookupFails db d.ID = false := by simpa using hlook
    simp only [processFile, findTopic_of_lookup st db d.ID hlook2] at hlog
    split at hlog
    · simp at hlog
    · split at hlog
      · rename_i h
        exact Or.inl h
      · split at hlog
        · rename_i h
          exact Or.inr h
        · exfalso
          split at hlog
          · simp at hlog
          · split at hlog <;> split at hlog <;> simp at hlog

theorem processFile_panicked (st : Storage) (ord : RangeOrder) (d : Topic) (db : Tables)
    (hlog : (processFile st ord (.decoded d) db).log = LogLine.panicked) :
    d.Profiles = none := by
  have hw : (saveOrUpdateTopic st ord db d).2 = WriteResult.panicked := by
    by_contra hne
    simp only [processFile] at hlog
    repeat' split at hlog
    all_goals contradiction
  cases hm : d.Profiles with
  | none => rfl
  | some m =>
    exfalso
    simp only [saveOrUpdateTopic, sxDo, transactionBody, hm] at hw
    split at hw
    · simp at hw
    · split at hw
      · simp at hw
      · split at hw <;> simp at hw

/-- C1, counterexample. Topic 0 with a participant map that stores two
versions of profile 9 under the keys 1 and 2 is created in empty tables; the
second run finds the row of identity 0, does not skip, ranges over the map in
the opposite order and leaves another photo for profile 9. And a first run
whose statements the storage refuses leaves the tables empty, while a second
run against a storage that accepts them does not. -/
theorem processFile_not_idempotent :
    (processFile Storage.reliable RangeOrder.stored (.decoded docZeroMiskeyed) Tables.empty).log
        = LogLine.created ∧
      (processFile Storage.reliable RangeOrder.stored (.decoded docZeroMiskeyed)
          Tables.empty).db.profiles
        = [⟨7, "Alice", "A", "alice", "a.png"⟩, ⟨9, "Nina", "N", "nina", "n.png"⟩] ∧
      (processFile Storage.reliable RangeOrder.reversed (.decoded docZeroMiskeyed)
          (processFile Storage.reliable RangeOrder.stored (.decoded docZeroMiskeyed)
            Tables.empty).db).db.profiles
        = [⟨7, "Alice", "A", "alice", "a.png"⟩, ⟨9, "Nina", "N", "nina", "n2.png"⟩] ∧
      (processFile Storage.refusing RangeOrder.stored (.decoded docA) Tables.empty).log
        = LogLine.couldNotCreate ∧
      (processFile Storage.refusing RangeOrder.stored (.decoded docA) Tables.empty).db
        = Tables.empty ∧
      (processFile Storage.reliable RangeOrder.stored (.decoded docA)
          (processFile Storage.refusing RangeOrder.stored (.decoded docA) Tables.empty).db).db
        ≠ (processFile Storage.refusing RangeOrder.stored (.decoded docA) Tables.empty).db :=
  ⟨by decide, by decide, by decide, by decide, by decide, by decide⟩

/-- C1, amended. Idempotency, each run meeting its own storage behaviour and
its own range order: the tables after the second run of a decoded document
equal the tables after the first run (a) when both runs meet the same storage
behaviour and the same range order, whatever the first run did; (b) when the
first run skipped the document or panicked on a nil participant map; (c) when
the first run created or updated the topic and either the identity of the
document is not 0 or the second run ranges over the map in the same order. -/
theorem processFile_idempotent (st st2 : Storage) (ord ord2 : RangeOrder) (d : Topic)
    (db : Tables)
    (h : (st2 = st ∧ ord2 = ord) ∨
      ((processFile st ord (.decoded d) db).log = LogLine.alreadyUpdated ∨
        (processFile st ord (.decoded d) db).log = LogLine.olderThanDatabase ∨
        (processFile st ord (.decoded d) db).log = LogLine.panicked) ∨
      (((processFile st ord (.decoded d) db).log = LogLine.created ∨
          (processFile st ord (.decoded d) db).log = LogLine.updated) ∧
        (d.ID ≠ 0 ∨ ord2 = ord))) :
    (processFile st2 ord2 (.decoded d) (processFile st ord (.decoded d) db).db).db
      = (processFile st ord (.decoded d) db).db := by
  have hsame : ∀ (s2 : Storage) (m : ProfileMap), d.Profiles = some m →
      (processFile s2 ord (.decoded d) (applyAll (closureStatements ord d m) db)).db
        = applyAll (closureStatements ord d m) db := by
    intro s2 m hm
    rcases processFile_cases s2 ord d (applyAll (closureStatements ord d m) db) with
      ⟨h2, _, _⟩ | ⟨m2, hm2, _, _, _, h2⟩
    · exact h2
    · have : m2 = m := by
        rw [hm] at hm2
        exact (Option.some.inj hm2).symm
      rw [h2, this, applyAll_idempotent]
  rcases h with ⟨rfl, rfl⟩ | hB | ⟨hlog, hC⟩
  · rcases processFile_cases st2 ord2 d db with ⟨h1, _, _⟩ | ⟨m, hm, _, _, _, h1⟩
    · rw [h1, h1]
    · rw [h1]
      exact hsame st2 m hm
  · have hdb : (processFile st ord (.decoded d) db).db = db := by
      rcases processFile_cases st ord d db with ⟨h1, _, _⟩ | ⟨_, _, _, _, hl, _⟩
      · exact h1
      · rcases hB with hb | hb | hb <;> rcases hl with hl | hl <;> rw [hb] at hl <;> cases hl
    rw [hdb]
    rcases hB with hb | hb | hb
    · exact processFile_skips d db (processFile_skip_log st ord d db (Or.inl hb)) st2 ord2
    · exact processFile_skips d db (processFile_skip_log st ord d db (Or.inr hb)) st2 ord2
    · have hnil := processFile_panicked st ord d db hb
      rcases processFile_cases st2 ord2 d db with ⟨h1, _, _⟩ | ⟨m, hm, _⟩
      · exact h1
      · rw [hnil] at hm
        cases hm
  · rcases processFile_cases st ord d db with ⟨_, hn1, hn2⟩ | ⟨m, hm, _, _, _, h1⟩
    · rcases hlog with hl | hl
      · exact absurd hl hn1
      · exact absurd hl hn2
    · rw [h1]
      rcases hC with hid | rfl
      · apply processFile_skips
        left
        obtain ⟨hI, hT, _⟩ := lookupTopic_found _ d.ID d.UpdatedAt
          (storedUpdatedAt_applyAll_same ord d m db)
        rw [hI, hT]
        exact ⟨hid, rfl⟩
      · exact hsame st2 m hm

/-- Witness for C1 amended: Scenario A then Scenario B, the second run against
a storage that refuses every statement and with the opposite range order. -/
theorem processFile_idempotent_witness :
    (processFile Storage.reliable RangeOrder.stored (.decoded docA) Tables.empty).log
        = LogLine.created ∧ docA.ID ≠ 0 ∧
      (processFile Storage.refusing RangeOrder.reversed (.decoded docA)
          (processFile Storage.reliable RangeOrder.stored (.decoded docA) Tables.empty).db).db
        = (processFile Storage.reliable RangeOrder.stored (.decoded docA) Tables.empty).db :=
  ⟨by decide, by decide,
    processFile_idempotent Storage.reliable Storage.refusing RangeOrder.stored
      RangeOrder.reversed docA Tables.empty
      (Or.inr (Or.inr ⟨Or.inl (by decide), Or.inl (by decide)⟩))⟩


theorem findTopic_found (st : Storage) (db : Tables) (id T : Int)
    (hlook : st.lookupFails db id = false) (hrow : storedUpdatedAt db id = some T) :
    (findTopic st db id).1.ID = id ∧ (findTopic st db id).1.UpdatedAt = T ∧
      (findTopic st db id).2 = none := by
  rw [findTopic_of_lookup st db id hlook]
  exact lookupTopic_found db id T hrow

theorem findTopic_missing (st : Storage) (db : Tables) (id : Int)
    (hlook : st.lookupFails db id = false) (hrow : storedUpdatedAt db id = none) :
    (findTopic st db id).1.ID = 0 ∧ (findTopic st db id).1.UpdatedAt = 0 ∧
      (findTopic st db id).2 = some DbError.errNoRows := by
  rw [findTopic_of_lookup st db id hlook]
  exact lookupTopic_missing db id hrow

/-- C2. SkipStale: when the lookup finds a stored row for the document's
identity whose marker `T` is newer than the document's `UpdatedAt`,
`processFile` does not call `saveOrUpdateTopic`, leaves all six tables as they
are, and logs that the topic is older than the one in the database. -/
theorem processFile_skipStale (st : Storage) (ord : RangeOrder) (d : Topic) (db : Tables)
    (T : Int) (hlook : st.lookupFails db d.ID = false)
    (hrow : storedUpdatedAt db d.ID = some T) (hlt : d.UpdatedAt < T) :
    (processFile st ord (.decoded d) db).saved = [] ∧
      (processFile st ord (.decoded d) db).db = db ∧
      (processFile st ord (.decoded d) db).log = LogLine.olderThanDatabase := by
  obtain ⟨_, hT, herr⟩ := findTopic_found st db d.ID T hlook hrow
  have hne : d.UpdatedAt ≠ T := ne_of_lt hlt
  simp [processFile, hT, herr, hne, hlt]

/-- Witness for C2: Scenario C, version 50 of topic 1 after Scenario A stored
version 100. -/
theorem processFile_skipStale_witness :
    storedUpdatedAt dbA docC.ID = some 100 ∧ docC.UpdatedAt < 100 ∧
      (processFile Storage.reliable RangeOrder.stored (.decoded docC) dbA).db = dbA ∧
      (processFile Storage.reliable RangeOrder.stored (.decoded docC) dbA).log
        = LogLine.olderThanDatabase :=
  ⟨by decide, by decide,
    (processFile_skipStale Storage.reliable RangeOrder.stored docC dbA 100 rfl (by decide)
      (by decide)).2⟩

theorem processFile_step_monotone (st : Storage) (ord : RangeOrder) (file : FileInput)
    (db : Tables) (i T : Int) (h : storedUpdatedAt db i = some T) :
    ∃ T2, storedUpdatedAt (processFile st ord file db).db i = some T2 ∧ T ≤ T2 := by
  cases file with
  | unreadable => exact ⟨T, h, le_refl T⟩
  | undecodable => exact ⟨T, h, le_refl T⟩
  | decoded d =>
    rcases processFile_cases st ord d db with ⟨hdb, _, _⟩ | ⟨m, _, _, hle, _, hdb⟩
    · rw [hdb]
      exact ⟨T, h, le_refl T⟩
    · rw [hdb]
      by_cases hi : i = d.ID
      · subst hi
        obtain ⟨_, hT, _⟩ := lookupTopic_found db d.ID T h
        rw [hT] at hle
        exact ⟨d.UpdatedAt, storedUpdatedAt_applyAll_same ord d m db, hle⟩
      · rw [storedUpdatedAt_applyAll_other ord d m db i hi]
        exact ⟨T, h, le_refl T⟩

/-- C3. Version marker: if a topics row for identity `i` (any identity, 0
included) is stored with marker `T`, then after `processFile` on any file a
row for `i` is still stored and its marker is at least `T`; the same holds
after any finite sequence of `processFile` calls by a single worker, each call
with its own storage behaviour and range order. -/
theorem updatedAt_nondecreasing (st : Storage) (ord : RangeOrder) (db : Tables) (i T : Int)
    (h : storedUpdatedAt db i = some T) :
    (∀ file : FileInput,
        ∃ T2, storedUpdatedAt (processFile st ord file db).db i = some T2 ∧ T ≤ T2) ∧
      (∀ calls : List Call,
        ∃ T2, storedUpdatedAt (processAll calls db) i = some T2 ∧ T ≤ T2) := by
  refine ⟨fun file => processFile_step_monotone st ord file db i T h, fun calls => ?_⟩
  induction calls generalizing db T with
  | nil => exact ⟨T, h, le_refl T⟩
  | cons c rest ih =>
    obtain ⟨T1, h1, hle1⟩ := processFile_step_monotone c.st c.ord c.file db i T h
    simp only [processAll]
    split
    · exact ⟨T1, h1, hle1⟩
    · obtain ⟨T2, h2, hle2⟩ := ih (processFile c.st c.ord c.file db).db T1 h1
      exact ⟨T2, h2, le_trans hle1 hle2⟩

/-- Witness for C3: topic 0 stored at version 100, then the same document at
versions 50 and 150, the second call with the opposite range order. -/
theorem updatedAt_nondecreasing_witness :
    storedUpdatedAt dbZero 0 = some 100 ∧
      ∃ T2, storedUpdatedAt (processAll
        [⟨Storage.reliable, RangeOrder.stored, .decoded { docZero with UpdatedAt := 50 }⟩,
          ⟨Storage.reliable, RangeOrder.reversed, .decoded { docZero with UpdatedAt := 150 }⟩]
        dbZero) 0 = some T2 ∧ (100 : Int) ≤ T2 :=
  ⟨by decide,
    (updatedAt_nondecreasing Storage.reliable RangeOrder.stored dbZero 0 100 (by decide)).2 _⟩

/-- C4, the code at the failing input: no row is stored for topic 1, the
lookup returns `sql.ErrNoRows` and the zero value, and the document with
`UpdatedAt = -1` is skipped as older than the database copy: the writer is
not called and nothing is stored. -/
theorem processFile_negative_timestamp_skipped :
    (findTopic Storage.reliable Tables.empty docNegative.ID).2 = some DbError.errNoRows ∧
      (processFile Storage.reliable RangeOrder.stored (.decoded docNegative) Tables.empty).log
        = LogLine.olderThanDatabase ∧
      (processFile Storage.reliable RangeOrder.stored (.decoded docNegative) Tables.empty).saved
        = [] ∧
      (processFile Storage.reliable RangeOrder.stored (.decoded docNegative) Tables.empty).db
        = Tables.empty :=
  ⟨by decide, by decide, rfl, by decide⟩

/-- Create on the remaining inputs: when the lookup finds no row and the
document's `UpdatedAt` is not negative, the writer is called with the
document, and a successful write is logged as created. -/
theorem processFile_create_of_nonneg (st : Storage) (ord : RangeOrder) (d : Topic) (db : Tables)
    (hlook : st.lookupFails db d.ID = false) (hrow : storedUpdatedAt db d.ID = none)
    (hnn : 0 ≤ d.UpdatedAt) :
    (processFile st ord (.decoded d) db).saved = [d] ∧
      ((saveOrUpdateTopic st ord db d).2 = WriteResult.ok →
        (processFile st ord (.decoded d) db).log = LogLine.created) := by
  obtain ⟨hid, hT, herr⟩ := findTopic_missing st db d.ID hlook hrow
  have hng : ¬ (0 > d.UpdatedAt) := not_lt.mpr hnn
  constructor
  · simp only [processFile, hid, hT, herr]
    simp only [hng, ne_eq, not_true_eq_false, false_and, and_false, if_false]
    repeat' split
    all_goals rfl
  · intro hok
    simp only [processFile, hid, hT, herr]
    simp [hng, hok]

/-- C5, counterexample: topic 0 is stored at version 100 and the document for
topic 0 has `UpdatedAt = 100`, yet `processFile` calls the writer, changes the
tables and logs the topic as created. -/
theorem processFile_skipEqual_fails_at_zero :
    storedUpdatedAt dbZero docZero.ID = some docZero.UpdatedAt ∧
      (processFile Storage.reliable RangeOrder.stored (.decoded docZero) dbZero).log
        = LogLine.created ∧
      (processFile Storage.reliable RangeOrder.stored (.decoded docZero) dbZero).saved.length
        = 1 ∧
      (processFile Storage.reliable RangeOrder.stored (.decoded docZero) dbZero).db ≠ dbZero :=
  ⟨by decide, by decide, rfl, by decide⟩

/-- C5, amended. SkipEqual for non-zero identities: when the lookup finds a
stored row for the document's identity, that identity is not 0 and the stored
marker equals the document's `UpdatedAt`, `processFile` logs that the topic is
already updated, does not call `saveOrUpdateTopic` and leaves the tables as
they are. -/
theorem processFile_skipEqual (st : Storage) (ord : RangeOrder) (d : Topic) (db : Tables)
    (hid : d.ID ≠ 0) (hlook : st.lookupFails db d.ID = false)
    (hrow : storedUpdatedAt db d.ID = some d.UpdatedAt) :
    (processFile st ord (.decoded d) db).log = LogLine.alreadyUpdated ∧
      (processFile st ord (.decoded d) db).saved = [] ∧
      (processFile st ord (.decoded d) db).db = db := by
  obtain ⟨hI, hT, herr⟩ := findTopic_found st db d.ID d.UpdatedAt hlook hrow
  simp [processFile, hI, hT, herr, hid]

/-- Witness for C5: Scenario B, the Scenario A document submitted again. -/
theorem processFile_skipEqual_witness :
    docA.ID ≠ 0 ∧ storedUpdatedAt dbA docA.ID = some docA.UpdatedAt ∧
      (processFile Storage.reliable RangeOrder.stored (.decoded docA) dbA).log
        = LogLine.alreadyUpdated :=
  ⟨by decide, by decide,
    (processFile_skipEqual Storage.reliable RangeOrder.stored docA dbA (by decide) rfl
      (by decide)).1⟩


/-- C6, counterexample: the Scenario A document carries no poll, yet its
transaction contains a polls upsert, and after it is created in empty tables
the polls table holds a row that refers to topic 1. -/
theorem poll_upsert_issued_without_poll :
    docA.Poll = Poll.zero ∧
      pollStmt docA ∈ issuedStatements RangeOrder.stored docA ∧
      (processFile Storage.reliable RangeOrder.stored (.decoded docA) Tables.empty).log
        = LogLine.created ∧
      (processFile Storage.reliable RangeOrder.stored (.decoded docA) Tables.empty).db.polls
        = [⟨0, "", 0, false, 0, false, 1⟩] :=
  ⟨by decide, by decide, by decide, by decide⟩

/-- C6, amended. Every document whose participant map is allocated, with or
without a poll, gets exactly one polls upsert, built from its `Poll` value and
`topic.ID`. For such a document without a poll that upsert carries the
zero-valued poll (identity 0, empty question) with `topic_id = topic.ID`, no
statement is issued against `poll_answers`, and a successful write into tables
without a polls row 0 adds the row `(0, "", 0, false, 0, false, topic.ID)`. -/
theorem poll_upsert_unconditional (st : Storage) (ord : RangeOrder) (db : Tables)
    (topic : Topic) (m : ProfileMap) (hm : topic.Profiles = some m)
    (hzero : topic.Poll = Poll.zero) :
    (∀ (t : Topic) (m2 : ProfileMap), t.Profiles = some m2 →
        (issuedStatements ord t).filterMap Stmt.pollRow? = [pollRow t]) ∧
      (issuedStatements ord topic).filterMap Stmt.pollRow?
        = [⟨0, "", 0, false, 0, false, topic.ID⟩] ∧
      (issuedStatements ord topic).filterMap Stmt.pollAnswerRow? = [] ∧
      ((saveOrUpdateTopic st ord db topic).2 = WriteResult.ok → (∀ r ∈ db.polls, r.id ≠ 0) →
        (saveOrUpdateTopic st ord db topic).1.polls
          = db.polls ++ [⟨0, "", 0, false, 0, false, topic.ID⟩]) := by
  have hrow : pollRow topic = ⟨0, "", 0, false, 0, false, topic.ID⟩ := by
    simp [pollRow, hzero, Poll.zero]
  refine ⟨fun t m2 hm2 => ?_, ?_, ?_, ?_⟩
  · rw [issuedStatements_some ord t m2 hm2, body_pollRows]
  · rw [issuedStatements_some ord topic m hm, body_pollRows, hrow]
  · rw [issuedStatements_some ord topic m hm, body_pollAnswerRows, hzero]
    rfl
  · intro hok hfresh
    obtain ⟨m2, _, hdb⟩ := saveOrUpdateTopic_ok st ord db topic hok
    rw [hdb, applyAll_tables]
    simp only [body_pollRows, upsertAll_cons, upsertAll_nil, hrow]
    exact upsert_of_absent PollRow.id PollRow.onConflict _ db.polls hfresh

/-- Witness for C6 amended: the Scenario A document written into empty tables. -/
theorem poll_upsert_unconditional_witness :
    docA.Profiles = some mapA ∧ docA.Poll = Poll.zero ∧
      (saveOrUpdateTopic Storage.reliable RangeOrder.stored Tables.empty docA).1.polls
        = Tables.empty.polls ++ [⟨0, "", 0, false, 0, false, docA.ID⟩] :=
  ⟨rfl, by decide,
    (poll_upsert_unconditional Storage.reliable RangeOrder.stored Tables.empty docA
      mapA rfl (by decide)).2.2.2 (by decide) (by decide)⟩

/-- C10, the code at the failing input: every `poll_answers` upsert carries
the vote count in the `rate` position. The two answers of the poll have rates
25 and 75 and votes 1 and 3; their upserts carry 1 and 3 as rate, and those
are the rates stored by a successful write. -/
theorem pollAnswer_rate_receives_votes :
    (∀ (topic : Topic) (answer : PollAnswer),
        (pollAnswerRow topic answer).rate = (answer.Votes : Rat)) ∧
      docPoll.Poll.Answers.map PollAnswer.Rate = [25, 75] ∧
      docPoll.Poll.Answers.map PollAnswer.Votes = [1, 3] ∧
      (issuedStatements RangeOrder.stored docPoll).filterMap Stmt.pollAnswerRow?
        = [⟨50, "yes", 1, 1, 5⟩, ⟨51, "no", 3, 3, 5⟩] ∧
      (saveOrUpdateTopic Storage.reliable RangeOrder.stored Tables.empty docPoll).2
        = WriteResult.ok ∧
      (saveOrUpdateTopic Storage.reliable RangeOrder.stored Tables.empty docPoll).1.poll_answers
        = [⟨50, "yes", 1, 1, 5⟩, ⟨51, "no", 3, 3, 5⟩] :=
  ⟨fun _ _ => rfl, by decide, by decide, by decide, by decide, by decide⟩

/-! ### Forced inclusion of the creator and updater profiles -/

theorem forcedProfiles_keys (topic : Topic) (m : ProfileMap) (i : Int) :
    i ∈ (forcedProfiles topic m).keys ↔
      i ∈ m.keys ∨ i = topic.CreatedBy.ID ∨ i = topic.UpdatedBy.ID := by
  unfold forcedProfiles
  rw [← AList.mem_keys, AList.mem_insert, AList.mem_insert, AList.mem_keys]
  tauto

theorem forcedProfiles_entries (topic : Topic) (m : ProfileMap)
    (e : Sigma fun _ : Int => Profile) (he : e ∈ (forcedProfiles topic m).entries) :
    e = ⟨topic.UpdatedBy.ID, topic.UpdatedBy⟩ ∨ e = ⟨topic.CreatedBy.ID, topic.CreatedBy⟩ ∨
      e ∈ m.entries := by
  unfold forcedProfiles at he
  rw [AList.insert_entries, List.mem_cons] at he
  rcases he with h | h
  · exact Or.inl h
  · have h2 := (List.kerase_sublist _ _).subset h
    rw [AList.insert_entries, List.mem_cons] at h2
    rcases h2 with h3 | h3
    · exact Or.inr (Or.inl h3)
    · exact Or.inr (Or.inr ((List.kerase_sublist _ _).subset h3))

theorem upsertedProfileIds_body (ord : RangeOrder) (topic : Topic) (m : ProfileMap) :
    upsertedProfileIds (closureStatements ord topic m)
      = (ord.run (forcedProfiles topic m).entries).map (fun e => e.2.ID) := by
  unfold upsertedProfileIds
  rw [body_profileRows, List.map_map]
  rfl

theorem pairwise_phase_append (l1 l2 : List Stmt) (k : Nat)
    (h1 : l1.Pairwise (fun a b => a.phase ≤ b.phase))
    (h2 : l2.Pairwise (fun a b => a.phase ≤ b.phase))
    (hle1 : ∀ a ∈ l1, a.phase ≤ k) (hle2 : ∀ b ∈ l2, k ≤ b.phase) :
    (l1 ++ l2).Pairwise (fun a b => a.phase ≤ b.phase) :=
  List.pairwise_append.mpr ⟨h1, h2, fun a ha b hb => le_trans (hle1 a ha) (hle2 b hb)⟩

theorem pairwise_phase_const (l : List Stmt) (k : Nat) (h : ∀ a ∈ l, a.phase = k) :
    l.Pairwise (fun a b => a.phase ≤ b.phase) := by
  apply List.pairwise_of_forall_mem_list
  intro a ha b hb
  rw [h a ha, h b hb]

theorem phase_profileStmts (l : List (Sigma fun _ : Int => Profile)) :
    ∀ a ∈ l.map (fun e => profileStmt e.2), a.phase = 0 := by
  intro a ha
  obtain ⟨x, _, rfl⟩ := List.mem_map.mp ha
  rfl

theorem phase_commentStmts (topic : Topic) :
    ∀ a ∈ topic.Comments.flatMap
        (fun c => commentStmt topic c :: c.Attachments.map (attachmentStmt c)),
      a.phase = 2 := by
  intro a ha
  obtain ⟨c, _, hc⟩ := List.mem_flatMap.mp ha
  rcases List.mem_cons.mp hc with rfl | hc2
  · rfl
  · obtain ⟨x, _, rfl⟩ := List.mem_map.mp hc2
    rfl

theorem phase_pollAnswerStmts (topic : Topic) :
    ∀ a ∈ topic.Poll.Answers.map (pollAnswerStmt topic), a.phase = 4 := by
  intro a ha
  obtain ⟨x, _, rfl⟩ := List.mem_map.mp ha
  rfl

theorem body_pairwise_phase (ord : RangeOrder) (topic : Topic) (m : ProfileMap) :
    (closureStatements ord topic m).Pairwise (fun a b => a.phase ≤ b.phase) := by
  unfold closureStatements
  have hP := phase_profileStmts (ord.run (forcedProfiles topic m).entries)
  have hC := phase_commentStmts topic
  have hA := phase_pollAnswerStmts topic
  have h1 : ∀ a ∈ (ord.run (forcedProfiles topic m).entries).map (fun e => profileStmt e.2)
      ++ [topicStmt topic], a.phase ≤ 1 := by
    intro a ha
    rcases List.mem_append.mp ha with h | h
    · rw [hP a h]
      exact Nat.zero_le 1
    · rw [List.mem_singleton.mp h]
      exact le_refl 1
  have h2 : ∀ a ∈ (ord.run (forcedProfiles topic m).entries).map (fun e => profileStmt e.2)
      ++ [topicStmt topic]
      ++ topic.Comments.flatMap
        (fun c => commentStmt topic c :: c.Attachments.map (attachmentStmt c)),
      a.phase ≤ 2 := by
    intro a ha
    rcases List.mem_append.mp ha with h | h
    · exact le_trans (h1 a h) (by decide)
    · rw [hC a h]
  have h3 : ∀ a ∈ (ord.run (forcedProfiles topic m).entries).map (fun e => profileStmt e.2)
      ++ [topicStmt topic]
      ++ topic.Comments.flatMap
        (fun c => commentStmt topic c :: c.Attachments.map (attachmentStmt c))
      ++ [pollStmt topic], a.phase ≤ 3 := by
    intro a ha
    rcases List.mem_append.mp ha with h | h
    · exact le_trans (h2 a h) (by decide)
    · rw [List.mem_singleton.mp h]
      exact le_refl 3
  refine pairwise_phase_append _ _ 3 ?_ (pairwise_phase_const _ 4 hA) h3
    (fun b hb => by rw [hA b hb]; exact Nat.le_succ 3)
  refine pairwise_phase_append _ _ 2 ?_ (List.pairwise_singleton _ _) h2
    (fun b hb => by rw [List.mem_singleton.mp hb]; exact Nat.le_succ 2)
  refine pairwise_phase_append _ _ 1 ?_ (pairwise_phase_const _ 2 hC) h1
    (fun b hb => by rw [hC b hb]; exact Nat.le_succ 1)
  exact pairwise_phase_append _ _ 0 (pairwise_phase_const _ 0 hP) (List.pairwise_singleton _ _)
    (fun a ha => by rw [hP a ha]) (fun b _ => Nat.zero_le _)

theorem topicStmt_mem_body (ord : RangeOrder) (topic : Topic) (m : ProfileMap) :
    topicStmt topic ∈ closureStatements ord topic m := by
  simp [closureStatements]

/-- C7, counterexample: the participant map stores profile 9 under the keys 1
and 2; the keys 1 and 2 are not among the upserted identities, and identity 9
is upserted twice. -/
theorem profile_ids_not_map_keys :
    docMiskeyed.Profiles.map AList.keys = some [2, 1] ∧
      upsertedProfileIds (issuedStatements RangeOrder.stored docMiskeyed) = [7, 9, 9] ∧
      1 ∉ upsertedProfileIds (issuedStatements RangeOrder.stored docMiskeyed) ∧
      ¬ (upsertedProfileIds (issuedStatements RangeOrder.stored docMiskeyed)).Nodup :=
  ⟨by decide, by decide, by decide, by decide⟩

/-- C7, amended. For every document whose participant map is allocated and
stores each profile under that profile's own identity, including a map that
lists neither the creator nor the updater, and for every range order: the
identities carried by the profile upserts are exactly the keys of the map
together with the creator's and the updater's identity, each identity is
upserted once, and every profile upsert comes before the topics upsert, none
after it. -/
theorem profiles_forced_inclusion (ord : RangeOrder) (topic : Topic) (m : ProfileMap)
    (hm : topic.Profiles = some m) (hkeyed : ∀ e ∈ m.entries, e.2.ID = e.1) :
    (∀ i, i ∈ upsertedProfileIds (issuedStatements ord topic) ↔
        i ∈ m.keys ∨ i = topic.CreatedBy.ID ∨ i = topic.UpdatedBy.ID) ∧
      (upsertedProfileIds (issuedStatements ord topic)).Nodup ∧
      (∀ pre r post, issuedStatements ord topic = pre ++ Stmt.upsertProfile r :: post →
        (∀ r2, Stmt.upsertTopic r2 ∉ pre) ∧ topicStmt topic ∈ post) := by
  rw [issuedStatements_some ord topic m hm]
  have hforced : ∀ e ∈ (forcedProfiles topic m).entries, e.2.ID = e.1 := by
    intro e he
    rcases forcedProfiles_entries topic m e he with rfl | rfl | h
    · rfl
    · rfl
    · exact hkeyed e h
  have hperm := ord.perm (forcedProfiles topic m).entries
  have hids : upsertedProfileIds (closureStatements ord topic m)
      = (ord.run (forcedProfiles topic m).entries).keys := by
    rw [upsertedProfileIds_body]
    unfold List.keys
    apply List.map_congr_left
    intro e he
    exact hforced e (hperm.subset he)
  have hpk : (ord.run (forcedProfiles topic m).entries).keys.Perm (forcedProfiles topic m).keys :=
    hperm.map _
  refine ⟨fun i => ?_, ?_, ?_⟩
  · rw [hids, hpk.mem_iff, forcedProfiles_keys]
  · rw [hids, hpk.nodup_iff]
    exact (forcedProfiles topic m).nodupKeys
  · intro pre r post hbody
    have hpw := body_pairwise_phase ord topic m
    rw [hbody, List.pairwise_append] at hpw
    obtain ⟨_, _, hcross⟩ := hpw
    have hpre : ∀ p ∈ pre, p.phase = 0 := fun p hp =>
      Nat.le_zero.mp (hcross p hp (Stmt.upsertProfile r) (List.mem_cons_self _ _))
    refine ⟨fun r2 hmem => ?_, ?_⟩
    · have := hpre _ hmem
      simp [Stmt.phase] at this
    · have hmem := topicStmt_mem_body ord topic m
      rw [hbody] at hmem
      rcases List.mem_append.mp hmem with h | h
      · have := hpre _ h
        simp [Stmt.phase, topicStmt] at this
      · rcases List.mem_cons.mp h with h2 | h2
        · simp [topicStmt] at h2
        · exact h2

/-- Witness for C7 amended: the map of `docUnlisted` lists participant 8 only,
neither the creator 7 nor the updater 6; the upserted identities are 6, 7 and
8, each once. -/
theorem profiles_forced_inclusion_witness :
    docUnlisted.Profiles = some mapUnlisted ∧
      (∀ e ∈ mapUnlisted.entries, e.2.ID = e.1) ∧
      docUnlisted.CreatedBy.ID ∉ mapUnlisted.keys ∧
      docUnlisted.UpdatedBy.ID ∉ mapUnlisted.keys ∧
      upsertedProfileIds (issuedStatements RangeOrder.stored docUnlisted) = [6, 7, 8] ∧
      (∀ i, i ∈ upsertedProfileIds (issuedStatements RangeOrder.stored docUnlisted) ↔
        i ∈ mapUnlisted.keys ∨ i = docUnlisted.CreatedBy.ID ∨
          i = docUnlisted.UpdatedBy.ID) ∧
      (upsertedProfileIds (issuedStatements RangeOrder.stored docUnlisted)).Nodup :=
  ⟨rfl, by decide, by decide, by decide, by decide,
    (profiles_forced_inclusion RangeOrder.stored docUnlisted mapUnlisted rfl
      (by decide)).1,
    (profiles_forced_inclusion RangeOrder.stored docUnlisted mapUnlisted rfl
      (by decide)).2.1⟩


/-! ### Write ordering -/

theorem parentsSeen_mono (l : List Stmt) (seen seen2 : EntityRef → Prop)
    (h : ∀ e, seen e → seen2 e) (hl : parentsSeen seen l) : parentsSeen seen2 l := by
  induction l generalizing seen seen2 with
  | nil => trivial
  | cons s rest ih =>
    obtain ⟨h1, h2⟩ := hl
    refine ⟨fun ref hr => h ref (h1 ref hr), ih _ _ ?_ h2⟩
    intro e he
    rcases he with he | he
    · exact Or.inl (h e he)
    · exact Or.inr he

theorem parentsSeen_of_forall (l : List Stmt) (seen : EntityRef → Prop)
    (h : ∀ s ∈ l, ∀ ref ∈ s.parents, seen ref) : parentsSeen seen l := by
  induction l generalizing seen with
  | nil => trivial
  | cons s rest ih =>
    refine ⟨h s (List.mem_cons_self _ _), ih _ ?_⟩
    intro s2 hs2 ref href
    exact Or.inl (h s2 (List.mem_cons_of_mem _ hs2) ref href)

theorem parentsSeen_append (l1 l2 : List Stmt) (seen : EntityRef → Prop)
    (h1 : parentsSeen seen l1)
    (h2 : parentsSeen (fun e => seen e ∨ ∃ p ∈ l1, p.entity = some e) l2) :
    parentsSeen seen (l1 ++ l2) := by
  induction l1 generalizing seen with
  | nil =>
    refine parentsSeen_mono l2 _ _ ?_ h2
    intro e he
    rcases he with he | ⟨p, hp, _⟩
    · exact he
    · cases hp
  | cons s rest ih =>
    obtain ⟨ha, hb⟩ := h1
    refine ⟨ha, ih _ hb ?_⟩
    refine parentsSeen_mono l2 _ _ ?_ h2
    intro e he
    rcases he with he | ⟨p, hp, hpe⟩
    · exact Or.inl (Or.inl he)
    · rcases List.mem_cons.mp hp with rfl | hp2
      · exact Or.inl (Or.inr hpe)
      · exact Or.inr ⟨p, hp2, hpe⟩

theorem parentsSeen_split (l : List Stmt) (seen : EntityRef → Prop) (hl : parentsSeen seen l)
    (pre : List Stmt) (s : Stmt) (post : List Stmt) (heq : l = pre ++ s :: post) :
    ∀ ref ∈ s.parents, seen ref ∨ ∃ p ∈ pre, p.entity = some ref := by
  induction pre generalizing l seen with
  | nil =>
    subst heq
    intro ref href
    exact Or.inl (hl.1 ref href)
  | cons x xs ih =>
    subst heq
    intro ref href
    rcases ih _ _ hl.2 rfl ref href with (h | h) | ⟨p, hp, hpe⟩
    · exact Or.inl h
    · exact Or.inr ⟨x, List.mem_cons_self _ _, h⟩
    · exact Or.inr ⟨p, List.mem_cons_of_mem _ hp, hpe⟩

theorem parentsSeen_comments (topic : Topic) (comments : List Comment)
    (seen : EntityRef → Prop) (htopic : seen (EntityRef.topic topic.ID)) :
    parentsSeen seen
      (comments.flatMap (fun c => commentStmt topic c :: c.Attachments.map (attachmentStmt c))) := by
  induction comments generalizing seen with
  | nil => trivial
  | cons c rest ih =>
    rw [List.flatMap_cons]
    apply parentsSeen_append
    · refine ⟨?_, parentsSeen_of_forall _ _ ?_⟩
      · intro ref href
        have : ref = EntityRef.topic topic.ID := by
          simpa [commentStmt, commentRow, Stmt.parents] using href
        rw [this]
        exact htopic
      · intro s hs ref href
        obtain ⟨a, _, rfl⟩ := List.mem_map.mp hs
        have : ref = EntityRef.comment c.ID := by
          simpa [attachmentStmt, attachmentRow, Stmt.parents] using href
        rw [this]
        exact Or.inr rfl
    · exact ih _ (Or.inl htopic)

theorem forcedProfiles_has_updater (topic : Topic) (m : ProfileMap) :
    ∃ e ∈ (forcedProfiles topic m).entries, e.2.ID = topic.UpdatedBy.ID := by
  refine ⟨⟨topic.UpdatedBy.ID, topic.UpdatedBy⟩, ?_, rfl⟩
  unfold forcedProfiles
  rw [AList.insert_entries]
  exact List.mem_cons_self _ _

theorem forcedProfiles_has_creator (topic : Topic) (m : ProfileMap) :
    ∃ e ∈ (forcedProfiles topic m).entries, e.2.ID = topic.CreatedBy.ID := by
  by_cases h : topic.CreatedBy.ID = topic.UpdatedBy.ID
  · obtain ⟨e, he, hid⟩ := forcedProfiles_has_updater topic m
    exact ⟨e, he, hid.trans h.symm⟩
  · refine ⟨⟨topic.CreatedBy.ID, topic.CreatedBy⟩, ?_, rfl⟩
    rw [← AList.mem_lookup_iff]
    unfold forcedProfiles
    rw [AList.lookup_insert_ne h, AList.lookup_insert]
    rfl

theorem body_parentsSeen (ord : RangeOrder) (topic : Topic) (m : ProfileMap) :
    parentsSeen (fun _ => False) (closureStatements ord topic m) := by
  unfold closureStatements
  have hperm := ord.perm (forcedProfiles topic m).entries
  apply parentsSeen_append
  · apply parentsSeen_append
    · apply parentsSeen_append
      · apply parentsSeen_append
        · apply parentsSeen_of_forall
          intro s hs ref href
          obtain ⟨e, _, rfl⟩ := List.mem_map.mp hs
          simp [profileStmt, Stmt.parents] at href
        · refine ⟨?_, trivial⟩
          intro ref href
          have hcases : ref = EntityRef.profile topic.CreatedBy.ID ∨
              ref = EntityRef.profile topic.UpdatedBy.ID := by
            simpa [topicStmt, topicRow, Stmt.parents] using href
          right
          rcases hcases with rfl | rfl
          · obtain ⟨e, he, hid⟩ := forcedProfiles_has_creator topic m
            refine ⟨profileStmt e.2, List.mem_map.mpr ⟨e, hperm.symm.subset he, rfl⟩, ?_⟩
            simp [profileStmt, profileRow, Stmt.entity, hid]
          · obtain ⟨e, he, hid⟩ := forcedProfiles_has_updater topic m
            refine ⟨profileStmt e.2, List.mem_map.mpr ⟨e, hperm.symm.subset he, rfl⟩, ?_⟩
            simp [profileStmt, profileRow, Stmt.entity, hid]
      · apply parentsSeen_comments
        right
        exact ⟨topicStmt topic, by simp, rfl⟩
    · refine ⟨?_, trivial⟩
      intro ref href
      have : ref = EntityRef.topic topic.ID := by
        simpa [pollStmt, pollRow, Stmt.parents] using href
      rw [this]
      right
      exact ⟨topicStmt topic, by simp, rfl⟩
  · apply parentsSeen_of_forall
    intro s hs ref href
    obtain ⟨a, _, rfl⟩ := List.mem_map.mp hs
    have : ref = EntityRef.poll topic.Poll.ID := by
      simpa [pollAnswerStmt, pollAnswerRow, Stmt.parents] using href
    rw [this]
    right
    exact ⟨pollStmt topic, by simp, rfl⟩

theorem body_filter_comments (ord : RangeOrder) (topic : Topic) (m : ProfileMap) :
    (closureStatements ord topic m).filter (fun s => decide (s.phase = 2))
      = topic.Comments.flatMap
          (fun c => commentStmt topic c :: c.Attachments.map (attachmentStmt c)) := by
  unfold closureStatements
  have hP : ((ord.run (forcedProfiles topic m).entries).map (fun e => profileStmt e.2)).filter
      (fun s => decide (s.phase = 2)) = [] := by
    rw [List.filter_eq_nil_iff]
    intro a ha
    rw [phase_profileStmts _ a ha]
    decide
  have hC : (topic.Comments.flatMap
      (fun c => commentStmt topic c :: c.Attachments.map (attachmentStmt c))).filter
      (fun s => decide (s.phase = 2)) = topic.Comments.flatMap
      (fun c => commentStmt topic c :: c.Attachments.map (attachmentStmt c)) := by
    rw [List.filter_eq_self]
    intro a ha
    rw [phase_commentStmts topic a ha]
    decide
  have hA : (topic.Poll.Answers.map (pollAnswerStmt topic)).filter
      (fun s => decide (s.phase = 2)) = [] := by
    rw [List.filter_eq_nil_iff]
    intro a ha
    rw [phase_pollAnswerStmts topic a ha]
    decide
  have ht : [topicStmt topic].filter (fun s => decide (s.phase = 2)) = [] := rfl
  have hq : [pollStmt topic].filter (fun s => decide (s.phase = 2)) = [] := rfl
  rw [List.filter_append, List.filter_append, List.filter_append, List.filter_append,
    hP, hC, hA, ht, hq]
  simp

/-- Write ordering for a document whose participant map is allocated, for
every range order. The statements are ordered by table: profile upserts, then
the topics upsert, then comment and attachment upserts, then the polls upsert,
then poll answer upserts. There is exactly one topics upsert and one polls
upsert. The comment and attachment upserts are, comment by comment in document
order, the comment's upsert followed by its attachments in attachment order;
the poll answer upserts follow the answer order. Every statement comes
strictly after the statements that write the parents it refers to. -/
theorem write_ordering (ord : RangeOrder) (topic : Topic) (m : ProfileMap)
    (hm : topic.Profiles = some m) :
    (issuedStatements ord topic).Pairwise (fun a b => a.phase ≤ b.phase) ∧
      (issuedStatements ord topic).filterMap Stmt.topicRow? = [topicRow topic] ∧
      (issuedStatements ord topic).filter (fun s => decide (s.phase = 2))
        = topic.Comments.flatMap
            (fun c => commentStmt topic c :: c.Attachments.map (attachmentStmt c)) ∧
      (issuedStatements ord topic).filterMap Stmt.pollRow? = [pollRow topic] ∧
      (issuedStatements ord topic).filterMap Stmt.pollAnswerRow?
        = topic.Poll.Answers.map (pollAnswerRow topic) ∧
      (∀ pre s post, issuedStatements ord topic = pre ++ s :: post →
        ∀ ref ∈ s.parents, ∃ p ∈ pre, p.entity = some ref) := by
  rw [issuedStatements_some ord topic m hm]
  refine ⟨body_pairwise_phase ord topic m, body_topicRows ord topic m,
    body_filter_comments ord topic m, body_pollRows ord topic m,
    body_pollAnswerRows ord topic m, ?_⟩
  intro pre s post heq ref href
  rcases parentsSeen_split _ _ (body_parentsSeen ord topic m) pre s post heq ref href with h | h
  · exact h.elim
  · exact h

/-- C8, the code at the failing input: the document decoded from a file
without a `profiles` object has a nil participant map; the first assignment of
the closure panics, so no statement is issued, in particular no topics upsert
and no polls upsert, and `processFile` ends in that panic with nothing stored.
For every document whose participant map is allocated the write ordering of
the claim holds. -/
theorem write_ordering_fails_on_nil_map :
    docNoProfiles.Profiles = none ∧
      transactionBody RangeOrder.stored docNoProfiles = none ∧
      issuedStatements RangeOrder.stored docNoProfiles = [] ∧
      (issuedStatements RangeOrder.stored docNoProfiles).filterMap Stmt.topicRow?
        ≠ [topicRow docNoProfiles] ∧
      (saveOrUpdateTopic Storage.reliable RangeOrder.stored Tables.empty docNoProfiles).2
        = WriteResult.panicked ∧
      (processFile Storage.reliable RangeOrder.stored (.decoded docNoProfiles) Tables.empty).log
        = LogLine.panicked ∧
      (processFile Storage.reliable RangeOrder.stored (.decoded docNoProfiles) Tables.empty).db
        = Tables.empty ∧
      (∀ (ord : RangeOrder) (topic : Topic) (m : ProfileMap), topic.Profiles = some m →
        (issuedStatements ord topic).Pairwise (fun a b => a.phase ≤ b.phase) ∧
        (issuedStatements ord topic).filterMap Stmt.topicRow? = [topicRow topic] ∧
        (issuedStatements ord topic).filter (fun s => decide (s.phase = 2))
          = topic.Comments.flatMap
              (fun c => commentStmt topic c :: c.Attachments.map (attachmentStmt c)) ∧
        (issuedStatements ord topic).filterMap Stmt.pollRow? = [pollRow topic] ∧
        (issuedStatements ord topic).filterMap Stmt.pollAnswerRow?
          = topic.Poll.Answers.map (pollAnswerRow topic) ∧
        (∀ pre s post, issuedStatements ord topic = pre ++ s :: post →
          ∀ ref ∈ s.parents, ∃ p ∈ pre, p.entity = some ref)) :=
  ⟨rfl, rfl, rfl, by decide, by decide, by decide, by decide,
    fun ord topic m hm => write_ordering ord topic m hm⟩


/-! ### Overwrite without deletion -/

theorem upsert_topic_fields (new : TopicRow) (t : List TopicRow) (r : TopicRow)
    (hr : r ∈ upsert TopicRow.id TopicRow.onConflict new t) (hid : r.id = new.id) :
    r.title = new.title ∧ r.is_closed = new.is_closed ∧ r.is_fixed = new.is_fixed ∧
      r.created_at = new.created_at ∧ r.updated_at = new.updated_at ∧
      r.created_by = new.created_by ∧ r.updated_by = new.updated_by := by
  by_cases h : ∃ x ∈ t, TopicRow.id x = TopicRow.id new
  · rw [upsert_of_present TopicRow.id TopicRow.onConflict new t h] at hr
    obtain ⟨x, _, rfl⟩ := List.mem_map.mp hr
    have hx : x.id = new.id := by
      rw [← hid]
      exact (key_touch TopicRow.id TopicRow.onConflict (fun _ _ _ => rfl) new x).symm
    simp [touch, hx, TopicRow.onConflict]
  · have h2 : ∀ x ∈ t, TopicRow.id x ≠ TopicRow.id new := fun x hx hxe => h ⟨x, hx, hxe⟩
    rw [upsert_of_absent TopicRow.id TopicRow.onConflict new t h2] at hr
    rcases List.mem_append.mp hr with h3 | h3
    · exact absurd hid (h2 r h3)
    · rw [List.mem_singleton.mp h3]
      exact ⟨rfl, rfl, rfl, rfl, rfl, rfl, rfl⟩

theorem profileRow_key_mem (ord : RangeOrder) (topic : Topic) (m : ProfileMap)
    (hm : topic.Profiles = some m) :
    ∀ n ∈ (ord.run (forcedProfiles topic m).entries).map (fun e => profileRow e.2),
      ProfileRow.id n ∈ topic.profileKeys := by
  intro n hn
  obtain ⟨e, he, rfl⟩ := List.mem_map.mp hn
  have he2 := (ord.perm _).subset he
  unfold Topic.profileKeys
  rw [hm]
  rcases forcedProfiles_entries topic m e he2 with rfl | rfl | h
  · simp [profileRow]
  · simp [profileRow]
  · apply List.mem_append_left
    exact List.mem_map.mpr ⟨e, h, rfl⟩

/-- C9, counterexample: Scenario D carries no poll, and a polls row with
identity 0 is stored for topic 1 with a question, votes and flags; the write
of Scenario D succeeds and leaves that row with an empty question, no votes
and cleared flags. -/
theorem poll_row_zero_overwritten :
    docD.Poll = Poll.zero ∧
      dbPollZero.polls = [⟨0, "Which colour?", 5, true, 9, true, 1⟩] ∧
      (saveOrUpdateTopic Storage.reliable RangeOrder.stored dbPollZero docD).2
        = WriteResult.ok ∧
      (saveOrUpdateTopic Storage.reliable RangeOrder.stored dbPollZero docD).1.polls
        = [⟨0, "", 0, false, 0, false, 1⟩] :=
  ⟨by decide, by decide, by decide, by decide⟩

/-- C9, amended. Overwrite without deletion: when the write of a document
succeeds, in each of the six tables no row is removed, every key stored before
is still stored, and every row whose key is not the key of an entity of the
decoded document is exactly as before, where the entities are its
participants, creator and updater, the topic, its comments, their attachments,
its `Poll` value (identity 0 when the document carries no poll) and the
answers of that value; and the topics row of the document's identity exists
and carries the document's title, closed and fixed flags, creation and update
timestamps, creator and updater. -/
theorem saveOrUpdateTopic_overwrites (st : Storage) (ord : RangeOrder) (db : Tables)
    (topic : Topic) (hok : (saveOrUpdateTopic st ord db topic).2 = WriteResult.ok) :
    Preserved ProfileRow.id topic.profileKeys db.profiles
        (saveOrUpdateTopic st ord db topic).1.profiles ∧
      Preserved TopicRow.id [topic.ID] db.topics
        (saveOrUpdateTopic st ord db topic).1.topics ∧
      Preserved CommentRow.id topic.commentKeys db.comments
        (saveOrUpdateTopic st ord db topic).1.comments ∧
      Preserved AttachmentRow.key topic.attachmentKeys db.attachments
        (saveOrUpdateTopic st ord db topic).1.attachments ∧
      Preserved PollRow.id [topic.Poll.ID] db.polls
        (saveOrUpdateTopic st ord db topic).1.polls ∧
      Preserved PollAnswerRow.id topic.answerKeys db.poll_answers
        (saveOrUpdateTopic st ord db topic).1.poll_answers ∧
      (∃ r ∈ (saveOrUpdateTopic st ord db topic).1.topics, r.id = topic.ID) ∧
      (∀ r ∈ (saveOrUpdateTopic st ord db topic).1.topics, r.id = topic.ID →
        r.title = topic.Title ∧ r.is_closed = topic.IsClosed ∧ r.is_fixed = topic.IsFixed ∧
        r.created_at = topic.CreatedAt ∧ r.updated_at = topic.UpdatedAt ∧
        r.created_by = topic.CreatedBy.ID ∧ r.updated_by = topic.UpdatedBy.ID) := by
  obtain ⟨m, hm, h⟩ := saveOrUpdateTopic_ok st ord db topic hok
  rw [h, applyAll_tables]
  simp only [body_profileRows, body_topicRows, body_commentRows, body_attachmentRows,
    body_pollRows, body_pollAnswerRows]
  refine ⟨?_, ?_, ?_, ?_, ?_, ?_, ?_, ?_⟩
  · exact upsertAll_preserved ProfileRow.id ProfileRow.onConflict (fun _ _ _ => rfl) _ _ _
      (profileRow_key_mem ord topic m hm)
  · apply upsertAll_preserved TopicRow.id TopicRow.onConflict (fun _ _ _ => rfl)
    intro n hn
    rw [List.mem_singleton.mp hn]
    exact List.mem_singleton.mpr rfl
  · apply upsertAll_preserved CommentRow.id CommentRow.onConflict (fun _ _ _ => rfl)
    intro n hn
    obtain ⟨c, hc, rfl⟩ := List.mem_map.mp hn
    exact List.mem_map.mpr ⟨c, hc, rfl⟩
  · apply upsertAll_preserved AttachmentRow.key AttachmentRow.onConflict (fun _ _ h => h.symm)
    intro n hn
    obtain ⟨c, hc, hn2⟩ := List.mem_flatMap.mp hn
    obtain ⟨a, ha, rfl⟩ := List.mem_map.mp hn2
    exact List.mem_flatMap.mpr ⟨c, hc, List.mem_map.mpr ⟨a, ha, rfl⟩⟩
  · apply upsertAll_preserved PollRow.id PollRow.onConflict (fun _ _ _ => rfl)
    intro n hn
    rw [List.mem_singleton.mp hn]
    exact List.mem_singleton.mpr rfl
  · apply upsertAll_preserved PollAnswerRow.id PollAnswerRow.onConflict (fun _ _ _ => rfl)
    intro n hn
    obtain ⟨a, ha, rfl⟩ := List.mem_map.mp hn
    exact List.mem_map.mpr ⟨a, ha, rfl⟩
  · exact upsert_has_key TopicRow.id TopicRow.onConflict (fun _ _ _ => rfl) (topicRow topic)
      db.topics
  · intro r hr hid
    exact upsert_topic_fields (topicRow topic) db.topics r hr hid

/-- Witness for C9 amended: Scenario D written after Scenario A; the write
succeeds and the comment of Scenario A, absent from the new document, is still
stored unchanged. -/
theorem saveOrUpdateTopic_overwrites_witness :
    (saveOrUpdateTopic Storage.reliable RangeOrder.stored dbA docD).2 = WriteResult.ok ∧
      Preserved CommentRow.id docD.commentKeys dbA.comments
        (saveOrUpdateTopic Storage.reliable RangeOrder.stored dbA docD).1.comments :=
  ⟨by decide,
    (saveOrUpdateTopic_overwrites Storage.reliable RangeOrder.stored dbA docD
      (by decide)).2.2.1⟩

end VkJson
